import Mathlib

/-!
# backend-pxl: the pixel canvas and the fan-out hub

A shallow embedding of `internal/websocket/canvas.go`, `message.go`, `hub.go` and the
parts of `client.go` the hub depends on.

* Go maps are finite maps (`Finmap`) / finite key sets (`Finset`).  Map objects that are
  shared by reference (`PixelCanvas.Pixels`, the result of `GetPixels`) live in a heap of
  map objects addressed by `MapRef`.
* `range` over a Go map visits the keys in an unspecified order: every loop takes the
  order it visits the keys in as an argument (`RangeOrder`).
* `time.Now()` is an argument of the function that calls it.
* A Go panic is the `Except.error` result.
* The mutexes are not modelled: every function below is one atomic step.
-/

namespace PixelHub

/-! ## Go runtime: maps, heap of map objects, iteration order -/

/-- A value of `time.Time`. -/
abbrev Time := Nat

/-- The contents of a `map[string]string`. -/
abbrev GoMap := Finmap (fun _ : String => String)

/-- A reference to a map object (what a Go variable of map type holds). -/
abbrev MapRef := Nat

/-- The map objects allocated so far: `cell r` is the contents of the object at `r`,
`next` is the first address that `make` has not handed out yet. -/
structure Heap where
  cell : MapRef → GoMap
  next : MapRef

/-- Allocation `make(map[string]string)`: a new, empty map object at a fresh address. -/
def Heap.make (h : Heap) : Heap × MapRef :=
  ({ cell := Function.update h.cell h.next ∅, next := h.next + 1 }, h.next)

/-- Replaces the contents of the map object at `r`. -/
def Heap.write (h : Heap) (r : MapRef) (m : GoMap) : Heap :=
  { h with cell := Function.update h.cell r m }

/-- A function `ord` is a possible iteration order of `range` over Go maps when it
enumerates every key set without repetition and without leaving a key out. -/
def RangeOrder {α : Type} (ord : Finset α → List α) : Prop :=
  ∀ s, (ord s).Nodup ∧ ∀ a, a ∈ ord s ↔ a ∈ s

/-! ## canvas.go -/

def CanvasWidth : Int := 32

def CanvasHeight : Int := 32

def DefaultColor : String := "#0d1117"

/-- The struct `PixelCanvas` (the mutex left out); `Pixels` holds a map reference. -/
structure PixelCanvas where
  Width : Int
  Height : Int
  Pixels : MapRef
  LastUpdate : Time

/-- A canvas object together with the heap its `Pixels` reference points into. -/
structure CanvasState where
  heap : Heap
  canvas : PixelCanvas

/-- The contents of the map `c.Pixels`. -/
def CanvasState.pixels (s : CanvasState) : GoMap :=
  s.heap.cell s.canvas.Pixels

/-- The key `fmt.Sprintf("%d,%d", x, y)`. -/
def pixelKey (x y : Int) : String :=
  toString x ++ "," ++ toString y

/-- `NewPixelCanvas()`, called at time `now` with heap `h`. -/
def NewPixelCanvas (h : Heap) (now : Time) : CanvasState :=
  let a := h.make
  { heap := a.1,
    canvas := { Width := CanvasWidth, Height := CanvasHeight, Pixels := a.2, LastUpdate := now } }

/-- `(*PixelCanvas).UpdatePixel`, called at time `now`. -/
def UpdatePixel (s : CanvasState) (x y : Int) (color : String) (now : Time) :
    CanvasState × Bool :=
  if x < 0 ∨ x ≥ s.canvas.Width ∨ y < 0 ∨ y ≥ s.canvas.Height then
    (s, false)
  else
    let key := pixelKey x y
    let h :=
      if color = DefaultColor then
        s.heap.write s.canvas.Pixels (s.pixels.erase key)
      else
        s.heap.write s.canvas.Pixels (s.pixels.insert key color)
    ({ heap := h, canvas := { s.canvas with LastUpdate := now } }, true)

/-- `(*PixelCanvas).GetPixel`. -/
def GetPixel (s : CanvasState) (x y : Int) : String :=
  if x < 0 ∨ x ≥ s.canvas.Width ∨ y < 0 ∨ y ≥ s.canvas.Height then
    DefaultColor
  else
    match s.pixels.lookup (pixelKey x y) with
    | some color => color
    | none => DefaultColor

/-- The loop `for k, v := range src { pixels[k] = v }` run over the keys in the order
`keys`, starting from the contents `acc` of `pixels`. -/
def copyEntries (src : GoMap) (keys : List String) (acc : GoMap) : GoMap :=
  keys.foldl
    (fun pixels k =>
      match src.lookup k with
      | some v => pixels.insert k v
      | none => pixels)
    acc

/-- `(*PixelCanvas).GetPixels`: allocates a new map object, copies every entry of
`c.Pixels` into it (visiting the keys in the order `ord`) and returns its reference. -/
def GetPixels (ord : Finset String → List String) (s : CanvasState) : CanvasState × MapRef :=
  let a := s.heap.make
  let pixels := copyEntries s.pixels (ord s.pixels.keys) ∅
  ({ s with heap := a.1.write a.2 pixels }, a.2)

/-- `(*PixelCanvas).Clear`, called at time `now`. -/
def Clear (s : CanvasState) (now : Time) : CanvasState :=
  let a := s.heap.make
  { heap := a.1, canvas := { s.canvas with Pixels := a.2, LastUpdate := now } }

/-- A call that mutates the canvas. -/
inductive CanvasOp where
  | update (x y : Int) (color : String) (now : Time)
  | clear (now : Time)

/-- The canvas after one mutating call. -/
def CanvasOp.apply (s : CanvasState) : CanvasOp → CanvasState
  | .update x y color now => (UpdatePixel s x y color now).1
  | .clear now => Clear s now

/-- The canvas after a sequence of mutating calls. -/
def runCanvas (s : CanvasState) (ops : List CanvasOp) : CanvasState :=
  ops.foldl CanvasOp.apply s

/-! ## message.go -/

def MessageTypeTextUpdate : String := "text_update"

def MessageTypeUserJoined : String := "user_joined"

def MessageTypeUserLeft : String := "user_left"

def MessageTypeHeartbeat : String := "heartbeat"

def MessageTypeUserList : String := "user_list"

def MessageTypePixelUpdate : String := "pixel_update"

def MessageTypeCanvasState : String := "canvas_state"

def MessageTypeCanvasClear : String := "canvas_clear"

/-- The struct `Message`.  `Typ` is the field `Type`.  A nil slice or nil map is `none`.
`Pixels` holds the contents of the map the message refers to. -/
structure Message where
  Typ : String
  Content : String
  ClientID : String
  UserList : Option (List String)
  Timestamp : Time
  X : Int
  Y : Int
  Color : String
  Pixels : Option GoMap

/-- The zero value `Message{}`. -/
def Message.zero : Message :=
  { Typ := "", Content := "", ClientID := "", UserList := none, Timestamp := 0,
    X := 0, Y := 0, Color := "", Pixels := none }

def NewTextUpdateMessage (content : String) (now : Time) : Message :=
  { Message.zero with Typ := MessageTypeTextUpdate, Content := content, Timestamp := now }

def NewUserJoinedMessage (clientID : String) (now : Time) : Message :=
  { Message.zero with Typ := MessageTypeUserJoined, ClientID := clientID, Timestamp := now }

def NewUserLeftMessage (clientID : String) (now : Time) : Message :=
  { Message.zero with Typ := MessageTypeUserLeft, ClientID := clientID, Timestamp := now }

def NewUserListMessage (userList : List String) (now : Time) : Message :=
  { Message.zero with Typ := MessageTypeUserList, UserList := some userList, Timestamp := now }

def NewPixelUpdateMessage (x y : Int) (color clientID : String) (now : Time) : Message :=
  { Message.zero with
    Typ := MessageTypePixelUpdate, X := x, Y := y, Color := color, ClientID := clientID,
    Timestamp := now }

def NewCanvasStateMessage (pixels : GoMap) (now : Time) : Message :=
  { Message.zero with Typ := MessageTypeCanvasState, Pixels := some pixels, Timestamp := now }

def NewCanvasClearMessage (now : Time) : Message :=
  { Message.zero with Typ := MessageTypeCanvasClear, Timestamp := now }

/-! ## client.go: the outbound queue `Client.Send` -/

/-- How a Go program panics in this code. -/
inductive Panic where
  | sendOnClosedChannel
  | closeOfClosedChannel
  deriving DecidableEq, Repr

/-- The address of a `Client` object (a value of type `*Client`). -/
abbrev Ptr := Nat

/-- The state of a buffered channel: the items waiting in it, oldest first, and whether
it has been closed. -/
structure Chan (B : Type) where
  buf : List B
  closed : Bool

/-- The capacity of `Client.Send`: `NewClient` makes it with `make(chan []byte, 256)`. -/
def sendCap : Nat := 256

/-- The channel `NewClient` creates. -/
def Chan.new {B : Type} : Chan B :=
  { buf := [], closed := false }

/-- The statement `select { case ch <- m: default: }`: panics on a closed channel,
enqueues `m` when the buffer has room (result `some` of the new channel state), and takes
the default branch otherwise (result `none`). -/
def Chan.trySend {B : Type} (ch : Chan B) (m : B) : Except Panic (Option (Chan B)) :=
  if ch.closed then .error .sendOnClosedChannel
  else if ch.buf.length < sendCap then .ok (some { ch with buf := ch.buf ++ [m] })
  else .ok none

/-- The call `close(ch)`: panics on a closed channel. -/
def Chan.close {B : Type} (ch : Chan B) : Except Panic (Chan B) :=
  if ch.closed then .error .closeOfClosedChannel
  else .ok { ch with closed := true }

/-- The receive `<-ch` of `WritePump` when an item is waiting: the oldest item leaves. -/
def Chan.dequeue {B : Type} (ch : Chan B) : Chan B :=
  { ch with buf := ch.buf.tail }

/-! ## hub.go -/

/-- The hub and the client objects it may hold: `clients` is the key set of the map
`h.clients` (every value stored in it is `true`), `canvas` the canvas `h.canvas` points
to, and for the client object at address `p`, `clientID p` is its field `ID` and `send p`
the state of its channel `Send`.  The unbuffered channels `register`, `unregister` and
`broadcast` hold nothing: what goes through them is an event of `Run`. -/
structure HubState (B : Type) where
  clients : Finset Ptr
  canvas : CanvasState
  clientID : Ptr → String
  send : Ptr → Chan B

/-- What the runtime decides during one step: the value of the `i`-th call of
`time.Now()`, the order of the `i`-th `range` over `h.clients`, and the order of a
`range` over a pixel map. -/
structure Env where
  now : Nat → Time
  ord : Nat → Finset Ptr → List Ptr
  keyOrd : Finset String → List String

/-- Every iteration order of the environment is a possible one. -/
def Env.Valid (env : Env) : Prop :=
  (∀ i, RangeOrder (env.ord i)) ∧ RangeOrder env.keyOrd

/-- `NewHub()`, with the client objects `clientID`, `send` that exist besides it. -/
def NewHub {B : Type} (clientID : Ptr → String) (send : Ptr → Chan B) (heap : Heap)
    (now : Time) : HubState B :=
  { clients := ∅, canvas := NewPixelCanvas heap now, clientID := clientID, send := send }

/-- The loop `for _, client := range clients { select { case client.Send <- message:
default: failedClients = append(failedClients, client) } }`: returns the channels after
it and `failedClients`. -/
def sendLoop {B : Type} (message : B) :
    List Ptr → (Ptr → Chan B) → Except Panic ((Ptr → Chan B) × List Ptr)
  | [], send => .ok (send, [])
  | client :: rest, send =>
    match (send client).trySend message with
    | .error e => .error e
    | .ok (some ch) => sendLoop message rest (Function.update send client ch)
    | .ok none =>
      match sendLoop message rest send with
      | .error e => .error e
      | .ok r => .ok (r.1, client :: r.2)

/-- The loop `for _, client := range failedClients { if _, exists := h.clients[client];
exists { delete(h.clients, client); close(client.Send) } }`. -/
def removeFailed {B : Type} : List Ptr → HubState B → Except Panic (HubState B)
  | [], h => .ok h
  | client :: rest, h =>
    if client ∈ h.clients then
      match (h.send client).close with
      | .error e => .error e
      | .ok ch =>
        removeFailed rest
          { h with clients := h.clients.erase client, send := Function.update h.send client ch }
    else removeFailed rest h

/-- The part `broadcastToAll` and `broadcastToOthers` have in common: the sends to the
collected `clients`, then the removal of the ones that failed. -/
def sendAndCleanUp {B : Type} (h : HubState B) (message : B) (clients : List Ptr) :
    Except Panic (HubState B) :=
  match sendLoop message clients h.send with
  | .error e => .error e
  | .ok r =>
    if r.2.length > 0 then removeFailed r.2 { h with send := r.1 }
    else .ok { h with send := r.1 }

/-- `(*Hub).broadcastToAll`, ranging over `h.clients` in the order `ord`. -/
def broadcastToAll {B : Type} (ord : Finset Ptr → List Ptr) (h : HubState B) (message : B) :
    Except Panic (HubState B) :=
  sendAndCleanUp h message (ord h.clients)

/-- `(*Hub).broadcastToOthers`, ranging over `h.clients` in the order `ord`. -/
def broadcastToOthers {B : Type} (ord : Finset Ptr → List Ptr) (h : HubState B) (message : B)
    (sender : Ptr) : Except Panic (HubState B) :=
  sendAndCleanUp h message ((ord h.clients).filter (fun client => client ≠ sender))

/-- The `register` case of `(*Hub).Run` for `client`; `marshal` is `json.Marshal`
(`none` when it returns an error). -/
def register {B : Type} (marshal : Message → Option B) (env : Env) (h : HubState B)
    (client : Ptr) : Except Panic (HubState B) :=
  let h1 : HubState B := { h with clients := insert client h.clients }
  let userList := (env.ord 0 h1.clients).map h1.clientID
  let g := GetPixels env.keyOrd h1.canvas
  let h2 : HubState B := { h1 with canvas := g.1 }
  let canvasStateMessage := NewCanvasStateMessage (g.1.heap.cell g.2) (env.now 0)
  let sent : Except Panic (HubState B) :=
    match marshal canvasStateMessage with
    | some msgBytes =>
      match (h2.send client).trySend msgBytes with
      | .error e => .error e
      | .ok (some ch) => .ok { h2 with send := Function.update h2.send client ch }
      | .ok none =>
        match (h2.send client).close with
        | .error e => .error e
        | .ok ch => .ok { h2 with send := Function.update h2.send client ch }
    | none => .ok h2
  match sent with
  | .error e => .error e
  | .ok h3 =>
    let joinMessage := NewUserJoinedMessage (h3.clientID client) (env.now 1)
    let joined : Except Panic (HubState B) :=
      match marshal joinMessage with
      | some msgBytes => broadcastToOthers (env.ord 1) h3 msgBytes client
      | none => .ok h3
    match joined with
    | .error e => .error e
    | .ok h4 =>
      let userListMessage := NewUserListMessage userList (env.now 2)
      match marshal userListMessage with
      | some msgBytes => broadcastToAll (env.ord 2) h4 msgBytes
      | none => .ok h4

/-- The `unregister` case of `(*Hub).Run` for `client`. -/
def unregister {B : Type} (marshal : Message → Option B) (env : Env) (h : HubState B)
    (client : Ptr) : Except Panic (HubState B) :=
  if client ∈ h.clients then
    match (h.send client).close with
    | .error e => .error e
    | .ok ch =>
      let h1 : HubState B :=
        { h with clients := h.clients.erase client, send := Function.update h.send client ch }
      let userList := (env.ord 0 h1.clients).map h1.clientID
      let leftMessage := NewUserLeftMessage (h1.clientID client) (env.now 0)
      let left : Except Panic (HubState B) :=
        match marshal leftMessage with
        | some msgBytes => broadcastToAll (env.ord 1) h1 msgBytes
        | none => .ok h1
      match left with
      | .error e => .error e
      | .ok h2 =>
        let updatedUserListMessage := NewUserListMessage userList (env.now 1)
        match marshal updatedUserListMessage with
        | some msgBytes => broadcastToAll (env.ord 2) h2 msgBytes
        | none => .ok h2
  else .ok h

/-- `(*Hub).HandlePixelMessage`. -/
def HandlePixelMessage {B : Type} (marshal : Message → Option B) (env : Env) (h : HubState B)
    (msg : Message) (client : Ptr) : Except Panic (HubState B) :=
  if msg.Typ = MessageTypePixelUpdate then
    let u := UpdatePixel h.canvas msg.X msg.Y msg.Color (env.now 0)
    if u.2 then
      let pixelMessage :=
        NewPixelUpdateMessage msg.X msg.Y msg.Color (h.clientID client) (env.now 1)
      match marshal pixelMessage with
      | some msgBytes => broadcastToAll (env.ord 0) { h with canvas := u.1 } msgBytes
      | none => .ok { h with canvas := u.1 }
    else .ok { h with canvas := u.1 }
  else if msg.Typ = MessageTypeCanvasClear then
    let h1 : HubState B := { h with canvas := Clear h.canvas (env.now 0) }
    let clearMessage := NewCanvasClearMessage (env.now 1)
    match marshal clearMessage with
    | some msgBytes => broadcastToAll (env.ord 0) h1 msgBytes
    | none => .ok h1
  else .ok h

/-- What `(*Hub).Run` and the goroutines around it do to the hub, one step at a time. -/
inductive HubEvent (B : Type) where
  | register (client : Ptr)
  | unregister (client : Ptr)
  | broadcast (message : B)
  | pixel (msg : Message) (client : Ptr)
  | dequeue (client : Ptr)

/-- One step of the hub in the environment `env`. -/
def step {B : Type} (marshal : Message → Option B) (env : Env) (h : HubState B) :
    HubEvent B → Except Panic (HubState B)
  | .register client => register marshal env h client
  | .unregister client => unregister marshal env h client
  | .broadcast message => broadcastToAll (env.ord 0) h message
  | .pixel msg client => HandlePixelMessage marshal env h msg client
  | .dequeue client =>
    .ok { h with send := Function.update h.send client (h.send client).dequeue }

/-- The hub after a sequence of steps, or the first panic. -/
def run {B : Type} (marshal : Message → Option B) :
    HubState B → List (Env × HubEvent B) → Except Panic (HubState B)
  | h, [] => .ok h
  | h, e :: rest =>
    match step marshal e.1 h e.2 with
    | .error p => .error p
    | .ok h1 => run marshal h1 rest

/-- A client that `NewClient` has just made: not in the registry, with an open and empty
outbound queue. -/
def Fresh {B : Type} (h : HubState B) (client : Ptr) : Prop :=
  client ∉ h.clients ∧ (h.send client).closed = false ∧ (h.send client).buf = []

/-- The steps the environment may take from `h`: only fresh clients are registered. -/
def HubEvent.enabled {B : Type} (h : HubState B) : HubEvent B → Prop
  | .register client => Fresh h client
  | _ => True

/-- A sequence of steps each of which is enabled where it is taken, in environments whose
iteration orders are possible ones. -/
def Admissible {B : Type} (marshal : Message → Option B) :
    HubState B → List (Env × HubEvent B) → Prop
  | _, [] => True
  | h, e :: rest =>
    e.1.Valid ∧ e.2.enabled h ∧
      ∀ h1, step marshal e.1 h e.2 = .ok h1 → Admissible marshal h1 rest

/-! ## client.go: the inbound pump -/

/-- One pass of the loop of `(*Client).ReadPump` for the client `c`.  `frame` is what
`c.Conn.ReadMessage()` returned (`none` for an error), `unmarshal` is `json.Unmarshal`
into a zero `Message` (`none` for an error), `stamp` is the `time.Now()` stored in
`msg.Timestamp`, and `intake` tells whether the hub is receiving on its unbuffered
`broadcast` channel at that moment, in which case the hub fans the bytes out.  The result
is the hub state and whether the loop goes on (`true`) or the pump leaves it (`false`),
which runs the deferred `c.Hub.Unregister() <- c`. -/
def readPumpPass {B : Type} (marshal : Message → Option B) (unmarshal : B → Option Message)
    (env : Env) (stamp : Time) (h : HubState B) (c : Ptr) (frame : Option B) (intake : Bool) :
    Except Panic (HubState B × Bool) :=
  match frame with
  | none => .ok (h, false)
  | some messageBytes =>
    match unmarshal messageBytes with
    | none => .ok (h, true)
    | some decoded =>
      let msg : Message := { decoded with Timestamp := stamp }
      if msg.Typ = MessageTypePixelUpdate ∨ msg.Typ = MessageTypeCanvasClear then
        match HandlePixelMessage marshal env h msg c with
        | .error e => .error e
        | .ok h1 => .ok (h1, true)
      else
        match marshal msg with
        | none => .ok (h, true)
        | some msgBytes =>
          if intake then
            match broadcastToAll (env.ord 0) h msgBytes with
            | .error e => .error e
            | .ok h1 => .ok (h1, true)
          else
            match (h.send c).close with
            | .error e => .error e
            | .ok ch => .ok ({ h with send := Function.update h.send c ch }, false)

/-- A pass of the inbound pump of `c` followed, when the pump leaves its loop, by the
`unregister` case of the hub that the deferred send triggers. -/
def readPumpThenTeardown {B : Type} (marshal : Message → Option B)
    (unmarshal : B → Option Message) (env envU : Env) (stamp : Time) (h : HubState B) (c : Ptr)
    (frame : Option B) (intake : Bool) : Except Panic (HubState B) :=
  match readPumpPass marshal unmarshal env stamp h c frame intake with
  | .error e => .error e
  | .ok r => if r.2 then .ok r.1 else unregister marshal envU r.1 c

/-! ## Canvas lemmas -/

theorem pixels_write (h : Heap) (c : PixelCanvas) (m : GoMap) :
    CanvasState.pixels { heap := h.write c.Pixels m, canvas := c } = m := by
  simp [CanvasState.pixels, Heap.write]

theorem pixels_update_in (s : CanvasState) (x y : Int) (color : String) (now : Time)
    (hb : ¬ (x < 0 ∨ x ≥ s.canvas.Width ∨ y < 0 ∨ y ≥ s.canvas.Height)) :
    (UpdatePixel s x y color now).1.pixels =
      if color = DefaultColor then s.pixels.erase (pixelKey x y)
      else s.pixels.insert (pixelKey x y) color := by
  unfold UpdatePixel
  rw [if_neg hb]
  by_cases hc : color = DefaultColor
  · simp [hc, CanvasState.pixels, Heap.write]
  · simp [hc, CanvasState.pixels, Heap.write]

theorem canvas_update (s : CanvasState) (x y : Int) (color : String) (now : Time) :
    (UpdatePixel s x y color now).1.canvas.Width = s.canvas.Width ∧
    (UpdatePixel s x y color now).1.canvas.Height = s.canvas.Height ∧
    (UpdatePixel s x y color now).1.canvas.Pixels = s.canvas.Pixels := by
  unfold UpdatePixel
  split <;> simp

theorem inBounds_of (s : CanvasState) (x y : Int)
    (hw : s.canvas.Width = CanvasWidth) (hh : s.canvas.Height = CanvasHeight)
    (hx : 0 ≤ x ∧ x < 32) (hy : 0 ≤ y ∧ y < 32) :
    ¬ (x < 0 ∨ x ≥ s.canvas.Width ∨ y < 0 ∨ y ≥ s.canvas.Height) := by
  rw [hw, hh]
  simp only [CanvasWidth, CanvasHeight]
  omega

theorem GetPixel_in (s : CanvasState) (x y : Int)
    (hb : ¬ (x < 0 ∨ x ≥ s.canvas.Width ∨ y < 0 ∨ y ≥ s.canvas.Height)) :
    GetPixel s x y = (s.pixels.lookup (pixelKey x y)).getD DefaultColor := by
  unfold GetPixel
  rw [if_neg hb]
  cases s.pixels.lookup (pixelKey x y) <;> rfl

theorem lookup_copyEntries (src : GoMap) (k : String) :
    ∀ (keys : List String) (acc : GoMap),
      (copyEntries src keys acc).lookup k =
        if k ∈ keys ∧ (src.lookup k).isSome then src.lookup k else acc.lookup k := by
  intro keys
  induction keys with
  | nil => intro acc; simp [copyEntries]
  | cons a l ih =>
    intro acc
    have hstep : copyEntries src (a :: l) acc =
        copyEntries src l (match src.lookup a with
          | some v => acc.insert a v
          | none => acc) := by
      simp [copyEntries]
    rw [hstep, ih]
    by_cases hka : k = a
    · subst hka
      cases hsrc : src.lookup k with
      | none => simp
      | some v => simp [Finmap.lookup_insert]
    · have hne : (a = k) = False := eq_false (fun h => hka h.symm)
      cases hsrc : src.lookup a with
      | none => simp [hka]
      | some v =>
        simp only [List.mem_cons, hka, false_or]
        rw [Finmap.lookup_insert_of_ne _ hka]

/-- The copy loop of `GetPixels` rebuilds the source map, whatever the iteration order. -/
theorem copyEntries_eq (ord : Finset String → List String) (hord : RangeOrder ord)
    (src : GoMap) : copyEntries src (ord src.keys) ∅ = src := by
  apply Finmap.ext_lookup
  intro k
  rw [lookup_copyEntries]
  by_cases hk : k ∈ src
  · have h1 : k ∈ ord src.keys := ((hord src.keys).2 k).2 (Finmap.mem_keys.2 hk)
    have h2 : (src.lookup k).isSome = true := Finmap.lookup_isSome.2 hk
    simp [h1, h2]
  · have h3 : src.lookup k = none := Finmap.lookup_eq_none.2 hk
    simp [h3]

theorem GetPixels_cell (ord : Finset String → List String) (hord : RangeOrder ord)
    (s : CanvasState) :
    (GetPixels ord s).1.heap.cell (GetPixels ord s).2 = s.pixels := by
  simp [GetPixels, Heap.write, Heap.make, copyEntries_eq ord hord]

theorem GetPixels_ref (ord : Finset String → List String) (s : CanvasState) :
    (GetPixels ord s).2 = s.heap.next ∧ (GetPixels ord s).1.canvas = s.canvas ∧
    (GetPixels ord s).1.heap.next = s.heap.next + 1 ∧
    ∀ r, r ≠ s.heap.next → (GetPixels ord s).1.heap.cell r = s.heap.cell r := by
  refine ⟨rfl, rfl, rfl, ?_⟩
  intro r hr
  simp [GetPixels, Heap.write, Heap.make, hr]

/-- No entry of the map holds the background color. -/
def NoBackground (m : GoMap) : Prop :=
  ∀ k v, m.lookup k = some v → v ≠ DefaultColor

/-- What every canvas built by `NewPixelCanvas` and changed by `UpdatePixel` and `Clear`
satisfies: the dimensions are 32x32, `Pixels` is an allocated object, and no entry holds
the background color. -/
def CanvasInv (s : CanvasState) : Prop :=
  s.canvas.Width = CanvasWidth ∧ s.canvas.Height = CanvasHeight ∧
  s.canvas.Pixels < s.heap.next ∧ NoBackground s.pixels

theorem NoBackground_empty : NoBackground ∅ := by
  intro k v h
  simp at h

theorem NoBackground_erase (m : GoMap) (a : String) (hm : NoBackground m) :
    NoBackground (m.erase a) := by
  intro k v h
  by_cases hk : k = a
  · subst hk; simp at h
  · rw [Finmap.lookup_erase_ne hk] at h
    exact hm k v h

theorem NoBackground_insert (m : GoMap) (a c : String) (hm : NoBackground m)
    (hc : c ≠ DefaultColor) : NoBackground (m.insert a c) := by
  intro k v h
  by_cases hk : k = a
  · subst hk
    rw [Finmap.lookup_insert] at h
    cases h
    exact hc
  · rw [Finmap.lookup_insert_of_ne _ hk] at h
    exact hm k v h

theorem CanvasInv_new (h : Heap) (now : Time) : CanvasInv (NewPixelCanvas h now) := by
  refine ⟨rfl, rfl, ?_, ?_⟩
  · simp [NewPixelCanvas, Heap.make]
  · have : (NewPixelCanvas h now).pixels = ∅ := by
      simp [NewPixelCanvas, Heap.make, CanvasState.pixels]
    rw [this]
    exact NoBackground_empty

theorem CanvasInv_clear (s : CanvasState) (now : Time) (hs : CanvasInv s) :
    CanvasInv (Clear s now) := by
  refine ⟨hs.1, hs.2.1, ?_, ?_⟩
  · simp [Clear, Heap.make]
  · have : (Clear s now).pixels = ∅ := by
      simp [Clear, Heap.make, CanvasState.pixels]
    rw [this]
    exact NoBackground_empty

theorem heap_next_update (s : CanvasState) (x y : Int) (color : String) (now : Time) :
    (UpdatePixel s x y color now).1.heap.next = s.heap.next := by
  unfold UpdatePixel
  split
  · rfl
  · split <;> rfl

theorem CanvasInv_update (s : CanvasState) (x y : Int) (color : String) (now : Time)
    (hs : CanvasInv s) : CanvasInv (UpdatePixel s x y color now).1 := by
  obtain ⟨hw, hh, hp, hn⟩ := hs
  have hc := canvas_update s x y color now
  refine ⟨hc.1.trans hw, hc.2.1.trans hh, ?_, ?_⟩
  · rw [hc.2.2, heap_next_update]
    exact hp
  · by_cases hb : (x < 0 ∨ x ≥ s.canvas.Width ∨ y < 0 ∨ y ≥ s.canvas.Height)
    · have : (UpdatePixel s x y color now).1 = s := by
        unfold UpdatePixel
        rw [if_pos hb]
      rw [this]
      exact hn
    · rw [pixels_update_in s x y color now hb]
      by_cases hcol : color = DefaultColor
      · rw [if_pos hcol]
        exact NoBackground_erase _ _ hn
      · rw [if_neg hcol]
        exact NoBackground_insert _ _ _ hn hcol

theorem CanvasInv_apply (s : CanvasState) (op : CanvasOp) (hs : CanvasInv s) :
    CanvasInv (op.apply s) := by
  cases op with
  | update x y color now => exact CanvasInv_update s x y color now hs
  | clear now => exact CanvasInv_clear s now hs

theorem CanvasInv_run (ops : List CanvasOp) :
    ∀ s : CanvasState, CanvasInv s → CanvasInv (runCanvas s ops) := by
  induction ops with
  | nil => intro s hs; exact hs
  | cons op l ih =>
    intro s hs
    exact ih (op.apply s) (CanvasInv_apply s op hs)

/-- The map object at `r` is allocated and is not the one the canvas writes to. -/
def Apart (s : CanvasState) (r : MapRef) : Prop :=
  r < s.heap.next ∧ r ≠ s.canvas.Pixels

theorem Apart_apply (s : CanvasState) (op : CanvasOp) (r : MapRef) (hr : Apart s r) :
    Apart (op.apply s) r ∧ (op.apply s).heap.cell r = s.heap.cell r := by
  obtain ⟨h1, h2⟩ := hr
  cases op with
  | update x y color now =>
    have hc := canvas_update s x y color now
    refine ⟨⟨?_, ?_⟩, ?_⟩
    · show r < (UpdatePixel s x y color now).1.heap.next
      rw [heap_next_update]
      exact h1
    · show r ≠ (UpdatePixel s x y color now).1.canvas.Pixels
      rw [hc.2.2]
      exact h2
    · show (UpdatePixel s x y color now).1.heap.cell r = s.heap.cell r
      unfold UpdatePixel
      split
      · rfl
      · split <;> simp [Heap.write, h2]
  | clear now =>
    have hne : r ≠ s.heap.next := Nat.ne_of_lt h1
    refine ⟨⟨?_, ?_⟩, ?_⟩
    · exact Nat.lt_succ_of_lt h1
    · exact hne
    · simp [CanvasOp.apply, Clear, Heap.make, hne]

theorem Apart_run (r : MapRef) (ops : List CanvasOp) :
    ∀ s : CanvasState, Apart s r → (runCanvas s ops).heap.cell r = s.heap.cell r := by
  induction ops with
  | nil => intro s _; rfl
  | cons op l ih =>
    intro s hs
    have h := Apart_apply s op r hs
    show (runCanvas (op.apply s) l).heap.cell r = s.heap.cell r
    rw [ih (op.apply s) h.1, h.2]

/-- An iteration order that exists: the keys in increasing order. -/
def sortedOrder {α : Type} [LinearOrder α] (s : Finset α) : List α :=
  s.sort (fun a b => a ≤ b)

theorem sortedOrder_rangeOrder {α : Type} [LinearOrder α] :
    RangeOrder (sortedOrder : Finset α → List α) := by
  intro s
  exact ⟨Finset.sort_nodup _ s, fun a => Finset.mem_sort _⟩

/-- A canvas with nothing painted, whose map is the object at address 0. -/
def blankCanvas : CanvasState :=
  { heap := { cell := fun _ => ∅, next := 1 },
    canvas := { Width := CanvasWidth, Height := CanvasHeight, Pixels := 0, LastUpdate := 0 } }

/-! ## Fan-out lemmas -/

/-- The hub after a fan-out of `m` to the registered clients in `targets`: a target with
room in its queue gets `m` at the tail, a target without room leaves the registry with
its queue closed. -/
def fanOut {B : Type} (targets : Finset Ptr) (h : HubState B) (m : B) : HubState B :=
  { h with
    clients := h.clients.filter (fun p => ¬ (p ∈ targets ∧ sendCap ≤ (h.send p).buf.length)),
    send := fun p =>
      if p ∈ targets then
        if (h.send p).buf.length < sendCap then
          { buf := (h.send p).buf ++ [m], closed := (h.send p).closed }
        else { buf := (h.send p).buf, closed := true }
      else h.send p }

theorem trySend_open {B : Type} (ch : Chan B) (m : B) (ho : ch.closed = false) :
    ch.trySend m =
      if ch.buf.length < sendCap then .ok (some { buf := ch.buf ++ [m], closed := ch.closed })
      else .ok none := by
  simp [Chan.trySend, ho]

theorem close_open {B : Type} (ch : Chan B) (ho : ch.closed = false) :
    ch.close = .ok { buf := ch.buf, closed := true } := by
  simp [Chan.close, ho]

theorem sendLoop_eq {B : Type} (m : B) :
    ∀ (l : List Ptr) (send : Ptr → Chan B), l.Nodup →
      (∀ p ∈ l, (send p).closed = false) →
      sendLoop m l send =
        .ok (fun p =>
            if p ∈ l ∧ (send p).buf.length < sendCap then
              { buf := (send p).buf ++ [m], closed := (send p).closed }
            else send p,
          l.filter (fun p => decide (sendCap ≤ (send p).buf.length))) := by
  intro l
  induction l with
  | nil => intro send _ _; simp [sendLoop]
  | cons c rest ih =>
    intro send hnd hopen
    have hc : c ∉ rest := (List.nodup_cons.1 hnd).1
    have hrest : rest.Nodup := (List.nodup_cons.1 hnd).2
    have hco : (send c).closed = false := hopen c (List.mem_cons_self _ _)
    by_cases hroom : (send c).buf.length < sendCap
    · have hsend : ∀ p ∈ rest,
          Function.update send c
            { buf := (send c).buf ++ [m], closed := (send c).closed } p = send p := by
        intro p hp
        have hpc : p ≠ c := fun h => hc (h ▸ hp)
        exact Function.update_noteq hpc _ _
      have hopen1 : ∀ p ∈ rest,
          (Function.update send c
            { buf := (send c).buf ++ [m], closed := (send c).closed } p).closed = false := by
        intro p hp
        rw [hsend p hp]
        exact hopen p (List.mem_cons_of_mem _ hp)
      unfold sendLoop
      rw [trySend_open _ _ hco, if_pos hroom]
      simp only []
      rw [ih _ hrest hopen1]
      congr 2
      · funext p
        by_cases hpc : p = c
        · subst hpc
          simp [hc, hroom]
        · by_cases hp : p ∈ rest
          · simp [hp, hsend p hp]
          · simp [hp, hpc, Function.update_noteq hpc]
      · have hnot : ¬ sendCap ≤ (send c).buf.length := Nat.not_le.2 hroom
        rw [List.filter_cons_of_neg (by simpa using hnot)]
        apply List.filter_congr
        intro p hp
        rw [hsend p hp]
    · have hfull : sendCap ≤ (send c).buf.length := Nat.le_of_not_lt hroom
      unfold sendLoop
      rw [trySend_open _ _ hco, if_neg hroom]
      simp only []
      rw [ih send hrest (fun p hp => hopen p (List.mem_cons_of_mem _ hp))]
      simp only []
      congr 2
      · funext p
        by_cases hpc : p = c
        · subst hpc
          simp [hc, hroom]
        · simp [hpc]
      · rw [List.filter_cons_of_pos (by simpa using hfull)]

theorem removeFailed_eq {B : Type} :
    ∀ (failed : List Ptr) (h : HubState B),
      (∀ p ∈ failed, p ∈ h.clients → (h.send p).closed = false) →
      removeFailed failed h =
        .ok { h with
          clients := h.clients.filter (fun p => p ∉ failed),
          send := fun p =>
            if p ∈ failed ∧ p ∈ h.clients then { buf := (h.send p).buf, closed := true }
            else h.send p } := by
  intro failed
  induction failed with
  | nil => intro h _; simp [removeFailed]
  | cons c rest ih =>
    intro h hopen
    by_cases hc : c ∈ h.clients
    · have hco : (h.send c).closed = false := hopen c (List.mem_cons_self _ _) hc
      unfold removeFailed
      rw [if_pos hc, close_open _ hco]
      simp only []
      rw [ih]
      · simp only [Except.ok.injEq, HubState.mk.injEq, true_and]
        refine ⟨?_, ?_⟩
        · ext p
          simp only [Finset.mem_filter, Finset.mem_erase, List.mem_cons, not_or]
          tauto
        · funext p
          by_cases hpc : p = c
          · subst hpc
            simp [hc]
          · simp [hpc, Function.update_noteq hpc]
      · intro p hp hpm
        have hpc : p ≠ c := (Finset.mem_erase.1 hpm).1
        show (Function.update h.send c _ p).closed = false
        rw [Function.update_noteq hpc]
        exact hopen p (List.mem_cons_of_mem _ hp) (Finset.mem_erase.1 hpm).2
    · unfold removeFailed
      rw [if_neg hc, ih h (fun p hp => hopen p (List.mem_cons_of_mem _ hp))]
      simp only [Except.ok.injEq, HubState.mk.injEq, true_and]
      refine ⟨?_, ?_⟩
      · ext p
        simp only [Finset.mem_filter, List.mem_cons, not_or]
        constructor
        · rintro ⟨h1, h2⟩
          exact ⟨h1, fun h3 => hc (h3 ▸ h1), h2⟩
        · rintro ⟨h1, _, h2⟩
          exact ⟨h1, h2⟩
      · funext p
        by_cases hpc : p = c
        · subst hpc
          simp [hc]
        · simp [hpc]

/-- The sends and the clean-up of a broadcast, over registered clients with open queues,
give `fanOut` and do not panic. -/
theorem sendAndCleanUp_eq {B : Type} (h : HubState B) (m : B) (l : List Ptr)
    (hnd : l.Nodup) (hsub : ∀ p ∈ l, p ∈ h.clients)
    (hopen : ∀ p ∈ l, (h.send p).closed = false) :
    sendAndCleanUp h m l = .ok (fanOut l.toFinset h m) := by
  unfold sendAndCleanUp
  rw [sendLoop_eq m l h.send hnd hopen]
  simp only []
  have hclosed : ∀ p ∈ l.filter (fun p => decide (sendCap ≤ (h.send p).buf.length)),
      ((fun p => if p ∈ l ∧ (h.send p).buf.length < sendCap then
          ({ buf := (h.send p).buf ++ [m], closed := (h.send p).closed } : Chan B)
        else h.send p) p).closed = false := by
    intro p hp
    have hp' := List.mem_filter.1 hp
    have hfull : ¬ (h.send p).buf.length < sendCap := Nat.not_lt.2 (by simpa using hp'.2)
    simp only [hfull, and_false, if_false]
    exact hopen p hp'.1
  have hrem := removeFailed_eq (l.filter (fun p => decide (sendCap ≤ (h.send p).buf.length)))
    { h with send := fun p => if p ∈ l ∧ (h.send p).buf.length < sendCap then
          ({ buf := (h.send p).buf ++ [m], closed := (h.send p).closed } : Chan B)
        else h.send p } (fun p hp _ => hclosed p hp)
  have hgoal : ({ h with
        clients := h.clients.filter (fun p =>
          p ∉ l.filter (fun p => decide (sendCap ≤ (h.send p).buf.length))),
        send := fun p =>
          if p ∈ l.filter (fun p => decide (sendCap ≤ (h.send p).buf.length)) ∧ p ∈ h.clients then
            { buf := ((fun p => if p ∈ l ∧ (h.send p).buf.length < sendCap then
                ({ buf := (h.send p).buf ++ [m], closed := (h.send p).closed } : Chan B)
              else h.send p) p).buf, closed := true }
          else (fun p => if p ∈ l ∧ (h.send p).buf.length < sendCap then
                ({ buf := (h.send p).buf ++ [m], closed := (h.send p).closed } : Chan B)
              else h.send p) p } : HubState B) = fanOut l.toFinset h m := by
    unfold fanOut
    simp only [HubState.mk.injEq, true_and, and_true]
    refine ⟨?_, ?_⟩
    · ext p
      simp only [Finset.mem_filter, List.mem_filter, List.mem_toFinset, decide_eq_true_eq]
    · funext p
      by_cases hp : p ∈ l
      · by_cases hroom : (h.send p).buf.length < sendCap
        · have hnf : ¬ sendCap ≤ (h.send p).buf.length := Nat.not_le.2 hroom
          simp [hp, hroom, hnf]
        · have hf : sendCap ≤ (h.send p).buf.length := Nat.le_of_not_lt hroom
          simp [hp, hroom, hf, hsub p hp]
      · simp [hp]
  split
  · rw [hrem]
    exact congrArg Except.ok hgoal
  · rename_i hlen
    have hnil : l.filter (fun p => decide (sendCap ≤ (h.send p).buf.length)) = [] := by
      cases hf : l.filter (fun p => decide (sendCap ≤ (h.send p).buf.length)) with
      | nil => rfl
      | cons a t => rw [hf] at hlen; simp at hlen
    rw [← hgoal, hnil]
    simp

theorem broadcastToAll_eq {B : Type} (ord : Finset Ptr → List Ptr) (hord : RangeOrder ord)
    (h : HubState B) (m : B) (hopen : ∀ p ∈ h.clients, (h.send p).closed = false) :
    broadcastToAll ord h m = .ok (fanOut h.clients h m) := by
  have hmem : ∀ p, p ∈ ord h.clients ↔ p ∈ h.clients := (hord h.clients).2
  have hset : (ord h.clients).toFinset = h.clients := by
    ext p
    rw [List.mem_toFinset, hmem]
  unfold broadcastToAll
  rw [sendAndCleanUp_eq h m _ (hord h.clients).1 (fun p hp => (hmem p).1 hp)
    (fun p hp => hopen p ((hmem p).1 hp)), hset]

theorem broadcastToOthers_eq {B : Type} (ord : Finset Ptr → List Ptr) (hord : RangeOrder ord)
    (h : HubState B) (m : B) (sender : Ptr)
    (hopen : ∀ p ∈ h.clients, p ≠ sender → (h.send p).closed = false) :
    broadcastToOthers ord h m sender = .ok (fanOut (h.clients.erase sender) h m) := by
  have hmem : ∀ p, p ∈ ord h.clients ↔ p ∈ h.clients := (hord h.clients).2
  have hset : ((ord h.clients).filter (fun client => client ≠ sender)).toFinset =
      h.clients.erase sender := by
    ext p
    simp only [List.mem_toFinset, List.mem_filter, hmem, Finset.mem_erase, decide_eq_true_eq]
    tauto
  unfold broadcastToOthers
  rw [sendAndCleanUp_eq h m _ ((hord h.clients).1.filter _)
    (fun p hp => (hmem p).1 (List.mem_filter.1 hp).1)
    (fun p hp => hopen p ((hmem p).1 (List.mem_filter.1 hp).1)
      (by simpa using (List.mem_filter.1 hp).2)), hset]

/-! ## Hub lemmas -/

/-- Every registered client has an open outbound queue. -/
def RegistryOpen {B : Type} (h : HubState B) : Prop :=
  ∀ p ∈ h.clients, (h.send p).closed = false

/-- The hub right after the `register` case has added `client` and has put the canvas
snapshot `b` into its empty queue. -/
def welcomed {B : Type} (keyOrd : Finset String → List String) (h : HubState B) (client : Ptr)
    (b : B) : HubState B :=
  { h with
    clients := insert client h.clients,
    canvas := (GetPixels keyOrd h.canvas).1,
    send := Function.update h.send client { buf := [b], closed := false } }

theorem RegistryOpen_fanOut {B : Type} (targets : Finset Ptr) (h : HubState B) (m : B)
    (ho : RegistryOpen h) : RegistryOpen (fanOut targets h m) := by
  intro p hp
  have hp' := Finset.mem_filter.1 hp
  have hopen := ho p hp'.1
  show (if p ∈ targets then
      if (h.send p).buf.length < sendCap then
        ({ buf := (h.send p).buf ++ [m], closed := (h.send p).closed } : Chan B)
      else { buf := (h.send p).buf, closed := true }
    else h.send p).closed = false
  by_cases ht : p ∈ targets
  · have hroom : (h.send p).buf.length < sendCap := by
      by_contra hc
      exact hp'.2 ⟨ht, Nat.le_of_not_lt hc⟩
    simp [ht, hroom, hopen]
  · simp [ht, hopen]

theorem RegistryOpen_welcomed {B : Type} (keyOrd : Finset String → List String)
    (h : HubState B) (client : Ptr) (b : B) (ho : RegistryOpen h) :
    RegistryOpen (welcomed keyOrd h client b) := by
  intro p hp
  show (Function.update h.send client { buf := [b], closed := false } p).closed = false
  by_cases hpc : p = client
  · subst hpc
    simp
  · rw [Function.update_noteq hpc]
    exact ho p (Finset.mem_of_mem_insert_of_ne hp hpc)

theorem sendCap_pos : 0 < sendCap := by decide

/-- The `register` case for a fresh client when every `json.Marshal` succeeds: the
snapshot goes to the new client, then the join notice is fanned out to the clients that
were there before, then the user list to whoever is registered by then. -/
theorem register_eq {B : Type} (marshal : Message → Option B) (env : Env) (h : HubState B)
    (client : Ptr) (bS bJ bL : B) (hv : env.Valid) (ho : RegistryOpen h)
    (hf : Fresh h client)
    (hS : marshal (NewCanvasStateMessage h.canvas.pixels (env.now 0)) = some bS)
    (hJ : marshal (NewUserJoinedMessage (h.clientID client) (env.now 1)) = some bJ)
    (hL : marshal (NewUserListMessage
      ((env.ord 0 (insert client h.clients)).map h.clientID) (env.now 2)) = some bL) :
    register marshal env h client =
      .ok (fanOut (fanOut h.clients (welcomed env.keyOrd h client bS) bJ).clients
        (fanOut h.clients (welcomed env.keyOrd h client bS) bJ) bL) := by
  obtain ⟨hnot, hopen, hempty⟩ := hf
  have hcell := GetPixels_cell env.keyOrd hv.2 h.canvas
  have hw := RegistryOpen_welcomed env.keyOrd h client bS ho
  have herase : (insert client h.clients).erase client = h.clients :=
    Finset.erase_insert hnot
  have hj : broadcastToOthers (env.ord 1) (welcomed env.keyOrd h client bS) bJ client =
      .ok (fanOut h.clients (welcomed env.keyOrd h client bS) bJ) := by
    rw [broadcastToOthers_eq (env.ord 1) (hv.1 1) _ bJ client (fun p hp _ => hw p hp)]
    show Except.ok (fanOut ((insert client h.clients).erase client) _ bJ) = _
    rw [herase]
  have hl := broadcastToAll_eq (env.ord 2) (hv.1 2)
    (fanOut h.clients (welcomed env.keyOrd h client bS) bJ) bL
    (RegistryOpen_fanOut _ _ _ hw)
  have htry : (h.send client).trySend bS = .ok (some { buf := [bS], closed := false }) := by
    rw [trySend_open _ _ hopen, hempty]
    simp [sendCap_pos, hopen]
  unfold register
  simp only [hcell, hS, htry, hJ, hL]
  have hj' : broadcastToOthers (env.ord 1)
      { clients := insert client h.clients, canvas := (GetPixels env.keyOrd h.canvas).1,
        clientID := h.clientID,
        send := Function.update h.send client { buf := [bS], closed := false } } bJ client =
      .ok (fanOut h.clients (welcomed env.keyOrd h client bS) bJ) := hj
  rw [hj']
  exact hl

theorem fanOut_send_of_not_mem {B : Type} (targets : Finset Ptr) (h : HubState B) (m : B)
    (p : Ptr) (hp : p ∉ targets) : (fanOut targets h m).send p = h.send p := by
  show (if p ∈ targets then _ else h.send p) = h.send p
  rw [if_neg hp]

theorem fanOut_send_of_room {B : Type} (targets : Finset Ptr) (h : HubState B) (m : B)
    (p : Ptr) (hp : p ∈ targets) (hroom : (h.send p).buf.length < sendCap) :
    (fanOut targets h m).send p =
      { buf := (h.send p).buf ++ [m], closed := (h.send p).closed } := by
  show (if p ∈ targets then
      if (h.send p).buf.length < sendCap then
        ({ buf := (h.send p).buf ++ [m], closed := (h.send p).closed } : Chan B)
      else { buf := (h.send p).buf, closed := true }
    else h.send p) = _
  rw [if_pos hp, if_pos hroom]

theorem fanOut_send_of_full {B : Type} (targets : Finset Ptr) (h : HubState B) (m : B)
    (p : Ptr) (hp : p ∈ targets) (hfull : sendCap ≤ (h.send p).buf.length) :
    (fanOut targets h m).send p = { buf := (h.send p).buf, closed := true } := by
  show (if p ∈ targets then
      if (h.send p).buf.length < sendCap then
        ({ buf := (h.send p).buf ++ [m], closed := (h.send p).closed } : Chan B)
      else { buf := (h.send p).buf, closed := true }
    else h.send p) = _
  rw [if_pos hp, if_neg (Nat.not_lt.2 hfull)]

theorem mem_fanOut {B : Type} (targets : Finset Ptr) (h : HubState B) (m : B) (p : Ptr) :
    p ∈ (fanOut targets h m).clients ↔
      p ∈ h.clients ∧ ¬ (p ∈ targets ∧ sendCap ≤ (h.send p).buf.length) := by
  show p ∈ h.clients.filter _ ↔ _
  rw [Finset.mem_filter]

/-- Where the three messages of the `register` case end up: the newcomer holds the
snapshot and the user list; a client that was registered and had two free slots holds the
join notice and the user list after what it held; nobody else is touched. -/
theorem register_queues {B : Type} (keyOrd : Finset String → List String) (h : HubState B)
    (client : Ptr) (bS bJ bL : B) (hnot : client ∉ h.clients) :
    (fanOut (fanOut h.clients (welcomed keyOrd h client bS) bJ).clients
        (fanOut h.clients (welcomed keyOrd h client bS) bJ) bL).send client =
      { buf := [bS, bL], closed := false } ∧
    client ∈ (fanOut (fanOut h.clients (welcomed keyOrd h client bS) bJ).clients
        (fanOut h.clients (welcomed keyOrd h client bS) bJ) bL).clients ∧
    (∀ p ∈ h.clients, (h.send p).buf.length + 2 ≤ sendCap →
      (fanOut (fanOut h.clients (welcomed keyOrd h client bS) bJ).clients
        (fanOut h.clients (welcomed keyOrd h client bS) bJ) bL).send p =
          { buf := (h.send p).buf ++ [bJ, bL], closed := (h.send p).closed } ∧
      p ∈ (fanOut (fanOut h.clients (welcomed keyOrd h client bS) bJ).clients
        (fanOut h.clients (welcomed keyOrd h client bS) bJ) bL).clients) ∧
    (∀ p, p ∈ (fanOut (fanOut h.clients (welcomed keyOrd h client bS) bJ).clients
        (fanOut h.clients (welcomed keyOrd h client bS) bJ) bL).clients →
      p = client ∨ p ∈ h.clients) ∧
    (∀ p, p ≠ client → p ∉ h.clients →
      (fanOut (fanOut h.clients (welcomed keyOrd h client bS) bJ).clients
        (fanOut h.clients (welcomed keyOrd h client bS) bJ) bL).send p = h.send p) := by
  have hWc : (welcomed keyOrd h client bS).send client = { buf := [bS], closed := false } := by
    simp [welcomed]
  have hWp : ∀ p, p ≠ client → (welcomed keyOrd h client bS).send p = h.send p := by
    intro p hp
    simp [welcomed, Function.update_noteq hp]
  have hWm : ∀ p, p ∈ (welcomed keyOrd h client bS).clients ↔ p = client ∨ p ∈ h.clients := by
    intro p
    simp [welcomed]
  have h1c : (fanOut h.clients (welcomed keyOrd h client bS) bJ).send client =
      { buf := [bS], closed := false } := by
    rw [fanOut_send_of_not_mem _ _ _ _ hnot, hWc]
  have h1m : client ∈ (fanOut h.clients (welcomed keyOrd h client bS) bJ).clients := by
    rw [mem_fanOut]
    exact ⟨(hWm client).2 (Or.inl rfl), fun hc => hnot hc.1⟩
  refine ⟨?_, ?_, ?_, ?_, ?_⟩
  · have hone : (1 : Nat) < sendCap := by decide
    rw [fanOut_send_of_room _ _ _ _ h1m (by rw [h1c]; exact hone), h1c]
    rfl
  · rw [mem_fanOut]
    refine ⟨h1m, fun hc => ?_⟩
    rw [h1c] at hc
    have hone : sendCap ≤ 1 := hc.2
    exact absurd hone (by decide)
  · intro p hp hroom
    have hpc : p ≠ client := fun hc => hnot (hc ▸ hp)
    have hr1 : ((welcomed keyOrd h client bS).send p).buf.length < sendCap := by
      rw [hWp p hpc]
      omega
    have h1p : (fanOut h.clients (welcomed keyOrd h client bS) bJ).send p =
        { buf := (h.send p).buf ++ [bJ], closed := (h.send p).closed } := by
      rw [fanOut_send_of_room _ _ _ _ hp hr1, hWp p hpc]
    have h1pm : p ∈ (fanOut h.clients (welcomed keyOrd h client bS) bJ).clients := by
      rw [mem_fanOut]
      exact ⟨(hWm p).2 (Or.inr hp), fun hc => absurd hc.2 (Nat.not_le.2 hr1)⟩
    have hr2 : ((fanOut h.clients (welcomed keyOrd h client bS) bJ).send p).buf.length <
        sendCap := by
      rw [h1p]
      simp only [List.length_append, List.length_singleton]
      omega
    refine ⟨?_, ?_⟩
    · rw [fanOut_send_of_room _ _ _ _ h1pm hr2, h1p]
      simp
    · rw [mem_fanOut]
      exact ⟨h1pm, fun hc => absurd hc.2 (Nat.not_le.2 hr2)⟩
  · intro p hp
    rw [mem_fanOut, mem_fanOut] at hp
    exact (hWm p).1 hp.1.1
  · intro p hpc hp
    have h1n : p ∉ (fanOut h.clients (welcomed keyOrd h client bS) bJ).clients := by
      rw [mem_fanOut]
      intro hc
      rcases (hWm p).1 hc.1 with h0 | h0
      · exact hpc h0
      · exact hp h0
    rw [fanOut_send_of_not_mem _ _ _ _ h1n, fanOut_send_of_not_mem _ _ _ _ hp, hWp p hpc]

theorem eq_singleton_of_nodup {α : Type} (l : List α) (a : α) (hnd : l.Nodup)
    (hmem : ∀ x, x ∈ l ↔ x = a) : l = [a] := by
  have hperm : l.Perm [a] :=
    (List.perm_ext_iff_of_nodup hnd (List.nodup_singleton a)).2
      (fun x => by rw [hmem, List.mem_singleton])
  exact List.perm_singleton.1 hperm

theorem canvasState_ne_userJoined : MessageTypeCanvasState ≠ MessageTypeUserJoined := by
  decide

theorem userList_ne_userJoined : MessageTypeUserList ≠ MessageTypeUserJoined := by
  decide

/-- The codec that leaves a message as it is. -/
def plainCodec : Message → Option Message :=
  some

/-- An environment: the `i`-th clock reading is `i`, keys are visited in increasing order. -/
def demoEnv : Env :=
  { now := fun i => i, ord := fun _ => sortedOrder, keyOrd := sortedOrder }

theorem demoEnv_valid : demoEnv.Valid :=
  ⟨fun _ => sortedOrder_rangeOrder, sortedOrder_rangeOrder⟩

/-- A hub with the client at address 1 registered, every queue open and empty. -/
def demoHub : HubState Message :=
  { clients := {1}, canvas := blankCanvas, clientID := fun p => toString p,
    send := fun _ => Chan.new }

/-- A hub that nobody is connected to any more, with the pixel (1,1) painted red. -/
def paintedHub : HubState Message :=
  { clients := ∅, canvas := (UpdatePixel blankCanvas 1 1 "#ff0000" 1).1,
    clientID := fun p => toString p, send := fun _ => Chan.new }

theorem paintedHub_pixels :
    paintedHub.canvas.pixels.lookup (pixelKey 1 1) = some "#ff0000" := by
  show (UpdatePixel blankCanvas 1 1 "#ff0000" 1).1.pixels.lookup (pixelKey 1 1) = _
  rw [pixels_update_in blankCanvas 1 1 "#ff0000" 1 (by decide), if_neg (by decide),
    Finmap.lookup_insert]

/-! ## The registry and the queues along a run -/

/-- From `h` to `h1` no queue was reopened, and every client that left the registry has
its queue closed. -/
def Evolves {B : Type} (h h1 : HubState B) : Prop :=
  (∀ p ∈ h.clients, p ∉ h1.clients → (h1.send p).closed = true) ∧
  (∀ p, (h.send p).closed = true → (h1.send p).closed = true)

theorem Evolves.refl {B : Type} (h : HubState B) : Evolves h h :=
  ⟨fun _ hp hn => absurd hp hn, fun _ hc => hc⟩

theorem Evolves.trans {B : Type} {h h1 h2 : HubState B} (h01 : Evolves h h1)
    (h12 : Evolves h1 h2) : Evolves h h2 := by
  refine ⟨?_, fun p hc => h12.2 p (h01.2 p hc)⟩
  intro p hp hn
  by_cases hp1 : p ∈ h1.clients
  · exact h12.1 p hp1 hn
  · exact h12.2 p (h01.1 p hp hp1)

theorem Evolves_fanOut {B : Type} (targets : Finset Ptr) (h : HubState B) (m : B) :
    Evolves h (fanOut targets h m) := by
  refine ⟨?_, ?_⟩
  · intro p hp hn
    rw [mem_fanOut] at hn
    have hc : p ∈ targets ∧ sendCap ≤ (h.send p).buf.length := by
      by_contra hc
      exact hn ⟨hp, hc⟩
    rw [fanOut_send_of_full _ _ _ _ hc.1 hc.2]
  · intro p hc
    by_cases ht : p ∈ targets
    · by_cases hroom : (h.send p).buf.length < sendCap
      · rw [fanOut_send_of_room _ _ _ _ ht hroom]
        exact hc
      · rw [fanOut_send_of_full _ _ _ _ ht (Nat.le_of_not_lt hroom)]
    · rw [fanOut_send_of_not_mem _ _ _ _ ht]
      exact hc

/-- A step that keeps registered queues open, reopens nothing and closes what it removes,
without a panic. -/
def StepsTo {B : Type} (h : HubState B) (r : Except Panic (HubState B)) : Prop :=
  ∃ h1, r = .ok h1 ∧ RegistryOpen h1 ∧ Evolves h h1

theorem StepsTo_broadcastToAll {B : Type} (ord : Finset Ptr → List Ptr)
    (hord : RangeOrder ord) (h : HubState B) (m : B) (ho : RegistryOpen h) :
    StepsTo h (broadcastToAll ord h m) :=
  ⟨_, broadcastToAll_eq ord hord h m ho, RegistryOpen_fanOut _ _ _ ho, Evolves_fanOut _ _ _⟩

theorem StepsTo_broadcastToOthers {B : Type} (ord : Finset Ptr → List Ptr)
    (hord : RangeOrder ord) (h : HubState B) (m : B) (sender : Ptr) (ho : RegistryOpen h) :
    StepsTo h (broadcastToOthers ord h m sender) :=
  ⟨_, broadcastToOthers_eq ord hord h m sender (fun p hp _ => ho p hp),
    RegistryOpen_fanOut _ _ _ ho, Evolves_fanOut _ _ _⟩

/-- A broadcast that is skipped when `json.Marshal` fails. -/
theorem StepsTo_marshalled {B : Type} (ord : Finset Ptr → List Ptr) (hord : RangeOrder ord)
    (h : HubState B) (encoded : Option B) (ho : RegistryOpen h) :
    StepsTo h (match encoded with
      | some msgBytes => broadcastToAll ord h msgBytes
      | none => .ok h) := by
  cases encoded with
  | none => exact ⟨h, rfl, ho, Evolves.refl h⟩
  | some b => exact StepsTo_broadcastToAll ord hord h b ho

theorem StepsTo_register {B : Type} (marshal : Message → Option B) (env : Env)
    (h : HubState B) (client : Ptr) (hv : env.Valid) (ho : RegistryOpen h)
    (hf : Fresh h client) : StepsTo h (register marshal env h client) := by
  obtain ⟨hnot, hopen, hempty⟩ := hf
  have htry : ∀ b : B,
      (h.send client).trySend b = .ok (some { buf := [b], closed := false }) := by
    intro b
    rw [trySend_open _ _ hopen, hempty]
    simp [sendCap_pos, hopen]
  have hadd : ∀ (cv : CanvasState) (ch : Chan B), ch.closed = false →
      StepsTo h (.ok { clients := insert client h.clients, canvas := cv,
                       clientID := h.clientID, send := Function.update h.send client ch }) := by
    intro cv ch hch
    refine ⟨_, rfl, ?_, ?_, ?_⟩
    · intro p hp
      show (Function.update h.send client ch p).closed = false
      by_cases hpc : p = client
      · subst hpc
        simpa using hch
      · rw [Function.update_noteq hpc]
        exact ho p (Finset.mem_of_mem_insert_of_ne hp hpc)
    · intro p hp hn
      exact absurd (Finset.mem_insert_of_mem hp) hn
    · intro p hc
      have hpc : p ≠ client := by
        intro hpc
        rw [hpc, hopen] at hc
        exact Bool.noConfusion hc
      show (Function.update h.send client ch p).closed = true
      rw [Function.update_noteq hpc]
      exact hc
  have hsent : StepsTo h
      (match marshal (NewCanvasStateMessage
          ((GetPixels env.keyOrd h.canvas).1.heap.cell (GetPixels env.keyOrd h.canvas).2)
          (env.now 0)) with
        | some msgBytes =>
          match (h.send client).trySend msgBytes with
          | .error e => .error e
          | .ok (some ch) =>
            .ok { clients := insert client h.clients, canvas := (GetPixels env.keyOrd h.canvas).1,
                  clientID := h.clientID, send := Function.update h.send client ch }
          | .ok none =>
            match (h.send client).close with
            | .error e => .error e
            | .ok ch =>
              .ok { clients := insert client h.clients,
                    canvas := (GetPixels env.keyOrd h.canvas).1,
                    clientID := h.clientID, send := Function.update h.send client ch }
        | none =>
          .ok { clients := insert client h.clients, canvas := (GetPixels env.keyOrd h.canvas).1,
                clientID := h.clientID, send := h.send }) := by
    cases marshal (NewCanvasStateMessage
        ((GetPixels env.keyOrd h.canvas).1.heap.cell (GetPixels env.keyOrd h.canvas).2)
        (env.now 0)) with
    | none =>
      have := hadd (GetPixels env.keyOrd h.canvas).1 (h.send client) hopen
      rw [Function.update_eq_self] at this
      exact this
    | some b =>
      simp only [htry b]
      exact hadd _ _ rfl
  unfold register
  simp only []
  obtain ⟨h3, hr3, ho3, he3⟩ := hsent
  rw [hr3]
  simp only []
  have hjoined : StepsTo h3
      (match marshal (NewUserJoinedMessage (h3.clientID client) (env.now 1)) with
        | some msgBytes => broadcastToOthers (env.ord 1) h3 msgBytes client
        | none => .ok h3) := by
    cases marshal (NewUserJoinedMessage (h3.clientID client) (env.now 1)) with
    | none => exact ⟨h3, rfl, ho3, Evolves.refl h3⟩
    | some b => exact StepsTo_broadcastToOthers (env.ord 1) (hv.1 1) h3 b client ho3
  obtain ⟨h4, hr4, ho4, he4⟩ := hjoined
  rw [hr4]
  simp only []
  obtain ⟨h5, hr5, ho5, he5⟩ := StepsTo_marshalled (env.ord 2) (hv.1 2) h4
    (marshal (NewUserListMessage
      ((env.ord 0 (insert client h.clients)).map h.clientID) (env.now 2))) ho4
  exact ⟨h5, hr5, ho5, (he3.trans he4).trans he5⟩

theorem StepsTo_unregister {B : Type} (marshal : Message → Option B) (env : Env)
    (h : HubState B) (client : Ptr) (hv : env.Valid) (ho : RegistryOpen h) :
    StepsTo h (unregister marshal env h client) := by
  unfold unregister
  by_cases hc : client ∈ h.clients
  · rw [if_pos hc, close_open _ (ho client hc)]
    simp only []
    have hrem : StepsTo h (.ok {
        clients := h.clients.erase client,
        canvas := h.canvas,
        clientID := h.clientID,
        send := Function.update h.send client
          { buf := (h.send client).buf, closed := true } }) := by
      refine ⟨_, rfl, ?_, ?_, ?_⟩
      · intro p hp
        have hp' := Finset.mem_erase.1 hp
        show (Function.update h.send client _ p).closed = false
        rw [Function.update_noteq hp'.1]
        exact ho p hp'.2
      · intro p hp hn
        have hpc : p = client := by
          by_contra hne
          exact hn (Finset.mem_erase.2 ⟨hne, hp⟩)
        show (Function.update h.send client _ p).closed = true
        rw [hpc, Function.update_same]
      · intro p hcl
        show (Function.update h.send client _ p).closed = true
        by_cases hpc : p = client
        · rw [hpc, Function.update_same]
        · rw [Function.update_noteq hpc]
          exact hcl
    obtain ⟨h1, hr1, ho1, he1⟩ := hrem
    cases hr1
    obtain ⟨h2, hr2, ho2, he2⟩ := StepsTo_marshalled (env.ord 1) (hv.1 1) _
      (marshal (NewUserLeftMessage (h.clientID client) (env.now 0))) ho1
    rw [hr2]
    simp only []
    obtain ⟨h3, hr3, ho3, he3⟩ := StepsTo_marshalled (env.ord 2) (hv.1 2) h2
      (marshal (NewUserListMessage
        ((env.ord 0 (h.clients.erase client)).map h.clientID) (env.now 1))) ho2
    exact ⟨h3, hr3, ho3, (he1.trans he2).trans he3⟩
  · rw [if_neg hc]
    exact ⟨h, rfl, ho, Evolves.refl h⟩

theorem StepsTo_canvas {B : Type} (h : HubState B) (cv : CanvasState) (ho : RegistryOpen h) :
    RegistryOpen { h with canvas := cv } ∧ Evolves h { h with canvas := cv } :=
  ⟨ho, fun _ hp hn => absurd hp hn, fun _ hc => hc⟩

theorem StepsTo_HandlePixelMessage {B : Type} (marshal : Message → Option B) (env : Env)
    (h : HubState B) (msg : Message) (client : Ptr) (hv : env.Valid) (ho : RegistryOpen h) :
    StepsTo h (HandlePixelMessage marshal env h msg client) := by
  unfold HandlePixelMessage
  split
  · simp only []
    split
    · obtain ⟨ho1, he1⟩ := StepsTo_canvas h
        (UpdatePixel h.canvas msg.X msg.Y msg.Color (env.now 0)).1 ho
      obtain ⟨h2, hr2, ho2, he2⟩ := StepsTo_marshalled (env.ord 0) (hv.1 0) _
        (marshal (NewPixelUpdateMessage msg.X msg.Y msg.Color (h.clientID client) (env.now 1)))
        ho1
      exact ⟨h2, hr2, ho2, he1.trans he2⟩
    · obtain ⟨ho1, he1⟩ := StepsTo_canvas h
        (UpdatePixel h.canvas msg.X msg.Y msg.Color (env.now 0)).1 ho
      exact ⟨_, rfl, ho1, he1⟩
  · split
    · obtain ⟨ho1, he1⟩ := StepsTo_canvas h (Clear h.canvas (env.now 0)) ho
      obtain ⟨h2, hr2, ho2, he2⟩ := StepsTo_marshalled (env.ord 0) (hv.1 0) _
        (marshal (NewCanvasClearMessage (env.now 1))) ho1
      exact ⟨h2, hr2, ho2, he1.trans he2⟩
    · exact ⟨h, rfl, ho, Evolves.refl h⟩

/-- Every enabled step from a state whose registered queues are open goes well. -/
theorem StepsTo_step {B : Type} (marshal : Message → Option B) (env : Env) (h : HubState B)
    (ev : HubEvent B) (hv : env.Valid) (ho : RegistryOpen h) (hen : ev.enabled h) :
    StepsTo h (step marshal env h ev) := by
  cases ev with
  | register client => exact StepsTo_register marshal env h client hv ho hen
  | unregister client => exact StepsTo_unregister marshal env h client hv ho
  | broadcast message => exact StepsTo_broadcastToAll (env.ord 0) (hv.1 0) h message ho
  | pixel msg client => exact StepsTo_HandlePixelMessage marshal env h msg client hv ho
  | dequeue client =>
    refine ⟨_, rfl, ?_, ?_, ?_⟩
    · intro p hp
      show (Function.update h.send client (h.send client).dequeue p).closed = false
      by_cases hpc : p = client
      · rw [hpc, Function.update_same]
        exact ho client (hpc ▸ hp)
      · rw [Function.update_noteq hpc]
        exact ho p hp
    · intro p hp hn
      exact absurd hp hn
    · intro p hc
      show (Function.update h.send client (h.send client).dequeue p).closed = true
      by_cases hpc : p = client
      · rw [hpc, Function.update_same]
        exact hpc ▸ hc
      · rw [Function.update_noteq hpc]
        exact hc

/-- An admissible run from a state whose registered queues are open does not panic, ends
in such a state, and every state it went through evolves into the last one. -/
theorem run_sound {B : Type} (marshal : Message → Option B) :
    ∀ (trace : List (Env × HubEvent B)) (h : HubState B), RegistryOpen h →
      Admissible marshal h trace →
      ∃ hf, run marshal h trace = .ok hf ∧ RegistryOpen hf ∧
        ∀ n, ∃ hn, run marshal h (trace.take n) = .ok hn ∧ Evolves hn hf := by
  intro trace
  induction trace with
  | nil =>
    intro h ho _
    refine ⟨h, rfl, ho, ?_⟩
    intro n
    rw [List.take_nil]
    exact ⟨h, rfl, Evolves.refl h⟩
  | cons e rest ih =>
    intro h ho hadm
    obtain ⟨hv, hen, hrest⟩ := hadm
    obtain ⟨h1, hs1, ho1, he1⟩ := StepsTo_step marshal e.1 h e.2 hv ho hen
    obtain ⟨hf, hrf, hof, hef⟩ := ih h1 ho1 (hrest h1 hs1)
    have hcons : ∀ l, run marshal h (e :: l) = run marshal h1 l := by
      intro l
      show (match step marshal e.1 h e.2 with
        | Except.error p => Except.error p
        | Except.ok h1 => run marshal h1 l) = _
      rw [hs1]
    refine ⟨hf, ?_, hof, ?_⟩
    · rw [hcons]
      exact hrf
    · intro n
      cases n with
      | zero =>
        obtain ⟨h0, hr0, he0⟩ := hef 0
        rw [List.take_zero] at hr0
        cases hr0
        rw [List.take_zero]
        exact ⟨h, rfl, he1.trans he0⟩
      | succ k =>
        rw [List.take_succ_cons, hcons]
        exact hef k

/-! ## Sending to a closed queue -/

theorem sendLoop_closed {B : Type} (m : B) :
    ∀ (l : List Ptr) (send : Ptr → Chan B), (∃ p ∈ l, (send p).closed = true) →
      sendLoop m l send = .error .sendOnClosedChannel := by
  intro l
  induction l with
  | nil =>
    intro send hex
    obtain ⟨p, hp, _⟩ := hex
    exact absurd hp (List.not_mem_nil p)
  | cons c rest ih =>
    intro send hex
    obtain ⟨p, hp, hcl⟩ := hex
    by_cases hc : (send c).closed = true
    · unfold sendLoop
      simp [Chan.trySend, hc]
    · have hco : (send c).closed = false := by simpa using hc
      have hpc : p ≠ c := by
        intro hpc
        rw [hpc] at hcl
        exact hc hcl
      have hpr : p ∈ rest := by
        rcases List.mem_cons.1 hp with h0 | h0
        · exact absurd h0 hpc
        · exact h0
      unfold sendLoop
      rw [trySend_open _ _ hco]
      by_cases hroom : (send c).buf.length < sendCap
      · rw [if_pos hroom]
        simp only []
        apply ih
        exact ⟨p, hpr, by rw [Function.update_noteq hpc]; exact hcl⟩
      · rw [if_neg hroom]
        simp only []
        rw [ih send ⟨p, hpr, hcl⟩]

/-- A fan-out pass that reaches a registered client whose queue is closed panics. -/
theorem broadcastToAll_closed {B : Type} (ord : Finset Ptr → List Ptr) (hord : RangeOrder ord)
    (h : HubState B) (m : B) (p : Ptr) (hp : p ∈ h.clients)
    (hcl : (h.send p).closed = true) :
    broadcastToAll ord h m = .error .sendOnClosedChannel := by
  unfold broadcastToAll sendAndCleanUp
  rw [sendLoop_closed m _ h.send ⟨p, ((hord h.clients).2 p).2 hp, hcl⟩]

theorem broadcastToOthers_closed {B : Type} (ord : Finset Ptr → List Ptr)
    (hord : RangeOrder ord) (h : HubState B) (m : B) (sender p : Ptr) (hp : p ∈ h.clients)
    (hps : p ≠ sender) (hcl : (h.send p).closed = true) :
    broadcastToOthers ord h m sender = .error .sendOnClosedChannel := by
  unfold broadcastToOthers sendAndCleanUp
  rw [sendLoop_closed m _ h.send ⟨p, List.mem_filter.2
    ⟨((hord h.clients).2 p).2 hp, by simpa using hps⟩, hcl⟩]

/-- The hub `demoHub` after the inbound pump of client 1 has closed the queue of client 1
(`close(c.Send)` in `ReadPump`) and before the hub has seen its unregistration. -/
def selfEvictedHub : HubState Message :=
  { demoHub with send := fun p => if p = 1 then { buf := [], closed := true } else Chan.new }

theorem UpdatePixel_outOfBounds_eq (s : CanvasState) (x y : Int) (color : String)
    (now : Time) (hw : s.canvas.Width = CanvasWidth) (hh : s.canvas.Height = CanvasHeight)
    (hout : x < 0 ∨ x ≥ 32 ∨ y < 0 ∨ y ≥ 32) :
    UpdatePixel s x y color now = (s, false) := by
  unfold UpdatePixel
  rw [hw, hh]
  simp only [CanvasWidth, CanvasHeight]
  rw [if_pos hout]

/-! ## The registry only shrinks in a fan-out -/

theorem removeFailed_subset {B : Type} :
    ∀ (failed : List Ptr) (h h1 : HubState B), removeFailed failed h = .ok h1 →
      h1.clients ⊆ h.clients := by
  intro failed
  induction failed with
  | nil =>
    intro h h1 hrun
    cases hrun
    exact Finset.Subset.refl _
  | cons c rest ih =>
    intro h h1 hrun
    unfold removeFailed at hrun
    by_cases hc : c ∈ h.clients
    · rw [if_pos hc] at hrun
      cases hcl : (h.send c).close with
      | error e =>
        rw [hcl] at hrun
        cases hrun
      | ok ch =>
        rw [hcl] at hrun
        exact (ih _ h1 hrun).trans (Finset.erase_subset c h.clients)
    · rw [if_neg hc] at hrun
      exact ih h h1 hrun

theorem sendAndCleanUp_subset {B : Type} (h h1 : HubState B) (m : B) (l : List Ptr)
    (hrun : sendAndCleanUp h m l = .ok h1) : h1.clients ⊆ h.clients := by
  unfold sendAndCleanUp at hrun
  cases hs : sendLoop m l h.send with
  | error e =>
    rw [hs] at hrun
    cases hrun
  | ok r =>
    rw [hs] at hrun
    simp only [] at hrun
    by_cases hlen : r.2.length > 0
    · rw [if_pos hlen] at hrun
      exact removeFailed_subset r.2 { h with send := r.1 } h1 hrun
    · rw [if_neg hlen] at hrun
      cases hrun
      exact Finset.Subset.refl _

/-- A broadcast that is skipped when `json.Marshal` fails never adds to the registry. -/
theorem marshalled_subset {B : Type} (ord : Finset Ptr → List Ptr) (h h1 : HubState B)
    (encoded : Option B)
    (hrun : (match encoded with
      | some msgBytes => broadcastToAll ord h msgBytes
      | none => .ok h) = .ok h1) : h1.clients ⊆ h.clients := by
  cases encoded with
  | none =>
    cases hrun
    exact Finset.Subset.refl _
  | some b => exact sendAndCleanUp_subset h h1 b _ hrun

/-- Whoever `unregister` has handled is out of the registry when it returns. -/
theorem unregister_not_mem {B : Type} (marshal : Message → Option B) (env : Env)
    (h h1 : HubState B) (client : Ptr) (hrun : unregister marshal env h client = .ok h1) :
    client ∉ h1.clients := by
  unfold unregister at hrun
  by_cases hc : client ∈ h.clients
  · rw [if_pos hc] at hrun
    cases hcl : (h.send client).close with
    | error e =>
      rw [hcl] at hrun
      cases hrun
    | ok ch =>
      rw [hcl] at hrun
      simp only [] at hrun
      cases hleft : (match marshal (NewUserLeftMessage (h.clientID client) (env.now 0)) with
        | some msgBytes =>
          broadcastToAll (env.ord 1)
            { clients := h.clients.erase client, canvas := h.canvas, clientID := h.clientID,
              send := Function.update h.send client ch } msgBytes
        | none =>
          Except.ok
            { clients := h.clients.erase client, canvas := h.canvas, clientID := h.clientID,
              send := Function.update h.send client ch }) with
      | error e =>
        rw [hleft] at hrun
        cases hrun
      | ok h2 =>
        rw [hleft] at hrun
        simp only [] at hrun
        have h2sub := marshalled_subset (env.ord 1) _ h2 _ hleft
        have h1sub := marshalled_subset (env.ord 2) h2 h1 _ hrun
        intro hmem
        exact Finset.not_mem_erase client h.clients (h2sub (h1sub hmem))
  · rw [if_neg hc] at hrun
    cases hrun
    exact hc

theorem unregister_absent {B : Type} (marshal : Message → Option B) (env : Env)
    (h : HubState B) (client : Ptr) (hc : client ∉ h.clients) :
    unregister marshal env h client = .ok h := by
  unfold unregister
  rw [if_neg hc]

/-- `HandlePixelMessage` reads only the type, the coordinate and the color of the event. -/
theorem HandlePixelMessage_congr {B : Type} (marshal : Message → Option B) (env : Env)
    (h : HubState B) (msg1 msg2 : Message) (client : Ptr) (ht : msg1.Typ = msg2.Typ)
    (hx : msg1.X = msg2.X) (hy : msg1.Y = msg2.Y) (hc : msg1.Color = msg2.Color) :
    HandlePixelMessage marshal env h msg1 client =
      HandlePixelMessage marshal env h msg2 client := by
  unfold HandlePixelMessage
  rw [ht, hx, hy, hc]

/-! ## Pixel events and unregistration in closed form -/

theorem UpdatePixel_in_true (s : CanvasState) (x y : Int) (color : String) (now : Time)
    (hb : ¬ (x < 0 ∨ x ≥ s.canvas.Width ∨ y < 0 ∨ y ≥ s.canvas.Height)) :
    (UpdatePixel s x y color now).2 = true := by
  unfold UpdatePixel
  rw [if_neg hb]

theorem GetPixel_after_update (s : CanvasState) (x y : Int) (color : String) (now : Time)
    (hb : ¬ (x < 0 ∨ x ≥ s.canvas.Width ∨ y < 0 ∨ y ≥ s.canvas.Height)) :
    GetPixel (UpdatePixel s x y color now).1 x y = color := by
  have hc := canvas_update s x y color now
  have hb1 : ¬ (x < 0 ∨ x ≥ (UpdatePixel s x y color now).1.canvas.Width ∨ y < 0 ∨
      y ≥ (UpdatePixel s x y color now).1.canvas.Height) := by
    rw [hc.1, hc.2.1]
    exact hb
  rw [GetPixel_in _ x y hb1, pixels_update_in s x y color now hb]
  by_cases hcol : color = DefaultColor
  · rw [if_pos hcol, Finmap.lookup_erase]
    exact hcol.symm
  · rw [if_neg hcol, Finmap.lookup_insert]
    rfl

/-- An accepted pixel update is the canvas write followed by one fan-out. -/
theorem HandlePixelMessage_update_eq {B : Type} (marshal : Message → Option B) (env : Env)
    (h : HubState B) (msg : Message) (client : Ptr) (b : B)
    (ht : msg.Typ = MessageTypePixelUpdate)
    (hin : (UpdatePixel h.canvas msg.X msg.Y msg.Color (env.now 0)).2 = true)
    (hb : marshal (NewPixelUpdateMessage msg.X msg.Y msg.Color (h.clientID client)
      (env.now 1)) = some b) :
    HandlePixelMessage marshal env h msg client =
      broadcastToAll (env.ord 0)
        { h with canvas := (UpdatePixel h.canvas msg.X msg.Y msg.Color (env.now 0)).1 } b := by
  unfold HandlePixelMessage
  rw [if_pos ht]
  simp only [hin, hb, if_true]

theorem pixelUpdate_ne_canvasClear : MessageTypeCanvasClear ≠ MessageTypePixelUpdate := by
  decide

/-- A canvas-clear event is `Clear` followed by one fan-out. -/
theorem HandlePixelMessage_clear_eq {B : Type} (marshal : Message → Option B) (env : Env)
    (h : HubState B) (msg : Message) (client : Ptr) (b : B)
    (ht : msg.Typ = MessageTypeCanvasClear)
    (hb : marshal (NewCanvasClearMessage (env.now 1)) = some b) :
    HandlePixelMessage marshal env h msg client =
      broadcastToAll (env.ord 0) { h with canvas := Clear h.canvas (env.now 0) } b := by
  unfold HandlePixelMessage
  rw [if_neg (by rw [ht]; exact pixelUpdate_ne_canvasClear), if_pos ht]
  simp only [hb]

/-- The queues after a fan-out to the whole registry of a hub whose canvas has just been
replaced by `cv`. -/
theorem fanOut_all_queues {B : Type} (h : HubState B) (cv : CanvasState) (b : B)
    (hopen : ∀ p ∈ h.clients, (h.send p).closed = false) :
    (∀ p ∈ h.clients, (h.send p).buf.length < sendCap →
      p ∈ (fanOut h.clients { h with canvas := cv } b).clients ∧
      (fanOut h.clients { h with canvas := cv } b).send p =
        { buf := (h.send p).buf ++ [b], closed := false }) ∧
    (∀ p, p ∉ h.clients ∨ sendCap ≤ (h.send p).buf.length →
      ((fanOut h.clients { h with canvas := cv } b).send p).buf = (h.send p).buf) := by
  refine ⟨?_, ?_⟩
  · intro p hp hr
    refine ⟨?_, ?_⟩
    · exact (mem_fanOut h.clients { h with canvas := cv } b p).2
        ⟨hp, fun hc => absurd hc.2 (Nat.not_le.2 hr)⟩
    · refine (fanOut_send_of_room h.clients { h with canvas := cv } b p hp hr).trans ?_
      show ({ buf := (h.send p).buf ++ [b], closed := (h.send p).closed } : Chan B) = _
      rw [hopen p hp]
  · intro p hp
    by_cases hpm : p ∈ h.clients
    · rcases hp with h0 | h0
      · exact absurd hpm h0
      · rw [fanOut_send_of_full h.clients { h with canvas := cv } b p hpm h0]
    · exact congrArg Chan.buf
        (fanOut_send_of_not_mem h.clients { h with canvas := cv } b p hpm)

/-- The hub right after the `unregister` case has deleted `client` and closed its queue. -/
def removed {B : Type} (h : HubState B) (client : Ptr) : HubState B :=
  { h with
    clients := h.clients.erase client,
    send := Function.update h.send client { buf := (h.send client).buf, closed := true } }

theorem RegistryOpen_removed {B : Type} (h : HubState B) (client : Ptr)
    (ho : RegistryOpen h) : RegistryOpen (removed h client) := by
  intro p hp
  have hp1 := Finset.mem_erase.1 hp
  show (Function.update h.send client _ p).closed = false
  rw [Function.update_noteq hp1.1]
  exact ho p hp1.2

/-- The `unregister` case for a registered client when every `json.Marshal` succeeds. -/
theorem unregister_eq {B : Type} (marshal : Message → Option B) (env : Env) (h : HubState B)
    (client : Ptr) (bLeft bList : B) (hv : env.Valid) (ho : RegistryOpen h)
    (hc : client ∈ h.clients)
    (hLeft : marshal (NewUserLeftMessage (h.clientID client) (env.now 0)) = some bLeft)
    (hList : marshal (NewUserListMessage
      ((env.ord 0 (h.clients.erase client)).map h.clientID) (env.now 1)) = some bList) :
    unregister marshal env h client =
      .ok (fanOut (fanOut (h.clients.erase client) (removed h client) bLeft).clients
        (fanOut (h.clients.erase client) (removed h client) bLeft) bList) := by
  have hr := RegistryOpen_removed h client ho
  have h1 : broadcastToAll (env.ord 1)
      { clients := h.clients.erase client, canvas := h.canvas, clientID := h.clientID,
        send := Function.update h.send client { buf := (h.send client).buf, closed := true } }
      bLeft = .ok (fanOut (h.clients.erase client) (removed h client) bLeft) :=
    broadcastToAll_eq (env.ord 1) (hv.1 1) (removed h client) bLeft hr
  have h2 := broadcastToAll_eq (env.ord 2) (hv.1 2)
    (fanOut (h.clients.erase client) (removed h client) bLeft) bList
    (RegistryOpen_fanOut _ _ _ hr)
  unfold unregister
  rw [if_pos hc, close_open _ (ho client hc)]
  simp only [hLeft, hList, h1]
  exact h2

/-- Where the two messages of the `unregister` case end up. -/
theorem unregister_queues {B : Type} (h : HubState B) (client : Ptr) (bLeft bList : B) :
    client ∉ (fanOut (fanOut (h.clients.erase client) (removed h client) bLeft).clients
        (fanOut (h.clients.erase client) (removed h client) bLeft) bList).clients ∧
    (fanOut (fanOut (h.clients.erase client) (removed h client) bLeft).clients
        (fanOut (h.clients.erase client) (removed h client) bLeft) bList).send client =
      { buf := (h.send client).buf, closed := true } ∧
    ∀ p ∈ h.clients, p ≠ client → (h.send p).buf.length + 2 ≤ sendCap →
      p ∈ (fanOut (fanOut (h.clients.erase client) (removed h client) bLeft).clients
        (fanOut (h.clients.erase client) (removed h client) bLeft) bList).clients ∧
      (fanOut (fanOut (h.clients.erase client) (removed h client) bLeft).clients
        (fanOut (h.clients.erase client) (removed h client) bLeft) bList).send p =
          { buf := (h.send p).buf ++ [bLeft, bList], closed := (h.send p).closed } := by
  have hRc : (removed h client).send client = { buf := (h.send client).buf, closed := true } := by
    simp [removed]
  have hRp : ∀ p, p ≠ client → (removed h client).send p = h.send p := by
    intro p hp
    simp [removed, Function.update_noteq hp]
  have hRm : ∀ p, p ∈ (removed h client).clients ↔ p ≠ client ∧ p ∈ h.clients := by
    intro p
    simp [removed]
  have hne : client ∉ h.clients.erase client := Finset.not_mem_erase client h.clients
  have h1n : client ∉ (fanOut (h.clients.erase client) (removed h client) bLeft).clients := by
    rw [mem_fanOut]
    exact fun hc => hne hc.1
  refine ⟨?_, ?_, ?_⟩
  · rw [mem_fanOut]
    exact fun hc => h1n hc.1
  · rw [fanOut_send_of_not_mem _ _ _ _ h1n, fanOut_send_of_not_mem _ _ _ _ hne, hRc]
  · intro p hp hpc hroom
    have hpe : p ∈ h.clients.erase client := Finset.mem_erase.2 ⟨hpc, hp⟩
    have hr1 : ((removed h client).send p).buf.length < sendCap := by
      rw [hRp p hpc]
      omega
    have h1p : (fanOut (h.clients.erase client) (removed h client) bLeft).send p =
        { buf := (h.send p).buf ++ [bLeft], closed := (h.send p).closed } := by
      rw [fanOut_send_of_room _ _ _ _ hpe hr1, hRp p hpc]
    have h1pm : p ∈ (fanOut (h.clients.erase client) (removed h client) bLeft).clients := by
      rw [mem_fanOut]
      exact ⟨hpe, fun hc => absurd hc.2 (Nat.not_le.2 hr1)⟩
    have hr2 : ((fanOut (h.clients.erase client) (removed h client) bLeft).send p).buf.length <
        sendCap := by
      rw [h1p]
      simp only [List.length_append, List.length_singleton]
      omega
    refine ⟨?_, ?_⟩
    · rw [mem_fanOut]
      exact ⟨h1pm, fun hc => absurd hc.2 (Nat.not_le.2 hr2)⟩
    · rw [fanOut_send_of_room _ _ _ _ h1pm hr2, h1p]
      simp

/-- The hub with clients 1 and 2 registered, after the inbound pump of client 1 has
closed the queue of client 1 and before the hub has seen its unregistration. -/
def halfEvictedHub : HubState Message :=
  { clients := {1, 2}, canvas := blankCanvas, clientID := fun p => toString p,
    send := fun p => if p = 1 then { buf := [], closed := true } else Chan.new }

/-! ## Self-eviction of the inbound pump -/

/-- The inbound pump of `c`, given a message that is not a pixel event while the hub is
not receiving on `broadcast`, closes the queue of `c` and leaves its loop; `c` stays in
the registry. -/
theorem readPumpPass_selfEvict {B : Type} (marshal : Message → Option B)
    (unmarshal : B → Option Message) (env : Env) (stamp : Time) (h : HubState B) (c : Ptr)
    (frame msgBytes : B) (decoded : Message) (hdec : unmarshal frame = some decoded)
    (ht : ¬ (decoded.Typ = MessageTypePixelUpdate ∨ decoded.Typ = MessageTypeCanvasClear))
    (henc : marshal { decoded with Timestamp := stamp } = some msgBytes)
    (hopen : (h.send c).closed = false) :
    readPumpPass marshal unmarshal env stamp h c (some frame) false =
      .ok ({ clients := h.clients, canvas := h.canvas, clientID := h.clientID,
             send := Function.update h.send c { buf := (h.send c).buf, closed := true } },
        false) := by
  unfold readPumpPass
  simp only [hdec, henc, close_open _ hopen]
  rw [if_neg ht]
  simp

/-- The `unregister` case for a registered client whose queue is already closed panics. -/
theorem unregister_closed {B : Type} (marshal : Message → Option B) (env : Env)
    (h : HubState B) (c : Ptr) (hc : c ∈ h.clients) (hcl : (h.send c).closed = true) :
    unregister marshal env h c = .error .closeOfClosedChannel := by
  unfold unregister
  rw [if_pos hc]
  simp [Chan.close, hcl]

theorem textUpdate_not_pixel :
    ¬ (MessageTypeTextUpdate = MessageTypePixelUpdate ∨
      MessageTypeTextUpdate = MessageTypeCanvasClear) := by
  decide

/-! ## The key `"%d,%d"` determines the coordinate -/

/-- The number a decimal digit stands for. -/
def digitValue (c : Char) : Nat :=
  c.toNat - 48

/-- The number a string of decimal digits stands for. -/
def decodeDigits (l : List Char) : Nat :=
  l.foldl (fun acc c => acc * 10 + digitValue c) 0

theorem digitChar_spec :
    ∀ d, d < 10 → digitValue (Nat.digitChar d) = d ∧ (Nat.digitChar d).isDigit = true := by
  decide

theorem decodeDigits_snoc (l : List Char) (c : Char) :
    decodeDigits (l ++ [c]) = decodeDigits l * 10 + digitValue c := by
  simp [decodeDigits, List.foldl_append]

theorem toDigitsCore_spec :
    ∀ (fuel n : Nat) (ds : List Char), n < fuel →
      ∃ l, Nat.toDigitsCore 10 fuel n ds = l ++ ds ∧ l ≠ [] ∧
        (∀ c ∈ l, c.isDigit = true) ∧ decodeDigits l = n := by
  intro fuel
  induction fuel with
  | zero => intro n ds hn; exact absurd hn (Nat.not_lt_zero n)
  | succ f ih =>
    intro n ds hn
    have hd := digitChar_spec (n % 10) (Nat.mod_lt n (by decide))
    by_cases hq : n / 10 = 0
    · refine ⟨[Nat.digitChar (n % 10)], ?_, by simp, ?_, ?_⟩
      · simp [Nat.toDigitsCore, hq]
      · intro c hc
        rw [List.mem_singleton] at hc
        rw [hc]
        exact hd.2
      · have hlt : n < 10 := by omega
        have hv := hd.1
        rw [Nat.mod_eq_of_lt hlt] at hv ⊢
        simp [decodeDigits, hv]
    · have hlt : n / 10 < f := by omega
      obtain ⟨l, hl, _, hdig, hdec⟩ := ih (n / 10) (Nat.digitChar (n % 10) :: ds) hlt
      refine ⟨l ++ [Nat.digitChar (n % 10)], ?_, by simp, ?_, ?_⟩
      · simp [Nat.toDigitsCore, hq, hl]
      · intro c hc
        rcases List.mem_append.1 hc with h0 | h0
        · exact hdig c h0
        · rw [List.mem_singleton] at h0
          rw [h0]
          exact hd.2
      · rw [decodeDigits_snoc, hdec, hd.1]
        omega

theorem toDigits_spec (n : Nat) :
    Nat.toDigits 10 n ≠ [] ∧ (∀ c ∈ Nat.toDigits 10 n, c.isDigit = true) ∧
      decodeDigits (Nat.toDigits 10 n) = n := by
  obtain ⟨l, hl, hne, hdig, hdec⟩ := toDigitsCore_spec (n + 1) n [] (Nat.lt_succ_self n)
  have : Nat.toDigits 10 n = l := by
    unfold Nat.toDigits
    rw [hl, List.append_nil]
  rw [this]
  exact ⟨hne, hdig, hdec⟩

/-- The characters of `%d` applied to `x`. -/
def intChars : Int → List Char
  | Int.ofNat m => Nat.toDigits 10 m
  | Int.negSucc m => '-' :: Nat.toDigits 10 (m + 1)

theorem toString_int_data (x : Int) : (toString x).data = intChars x := by
  cases x with
  | ofNat m => rfl
  | negSucc m => rfl

theorem pixelKey_data (x y : Int) :
    (pixelKey x y).data = intChars x ++ ',' :: intChars y := by
  unfold pixelKey
  rw [String.data_append, String.data_append, toString_int_data, toString_int_data]
  simp

theorem comma_not_mem_intChars (x : Int) : ',' ∉ intChars x := by
  intro hmem
  cases x with
  | ofNat m =>
    have := (toDigits_spec m).2.1 ',' hmem
    exact absurd this (by decide)
  | negSucc m =>
    rcases List.mem_cons.1 hmem with h0 | h0
    · exact absurd h0 (by decide)
    · have := (toDigits_spec (m + 1)).2.1 ',' h0
      exact absurd this (by decide)

theorem intChars_injective (x y : Int) (hxy : intChars x = intChars y) : x = y := by
  have hhead : ∀ (m k : Nat), Nat.toDigits 10 m ≠ '-' :: Nat.toDigits 10 (k + 1) := by
    intro m k heq
    have hdig := (toDigits_spec m).2.1 '-' (by rw [heq]; exact List.mem_cons_self _ _)
    exact absurd hdig (by decide)
  cases x with
  | ofNat m =>
    cases y with
    | ofNat k =>
      have hm := (toDigits_spec m).2.2
      have hk := (toDigits_spec k).2.2
      have heq : Nat.toDigits 10 m = Nat.toDigits 10 k := hxy
      rw [heq, hk] at hm
      rw [hm]
    | negSucc k => exact absurd hxy (hhead m k)
  | negSucc m =>
    cases y with
    | ofNat k => exact absurd hxy.symm (hhead k m)
    | negSucc k =>
      have heq : Nat.toDigits 10 (m + 1) = Nat.toDigits 10 (k + 1) := List.tail_eq_of_cons_eq hxy
      have hm := (toDigits_spec (m + 1)).2.2
      have hk := (toDigits_spec (k + 1)).2.2
      rw [heq, hk] at hm
      have : m = k := by omega
      rw [this]

theorem split_at_comma :
    ∀ (l1 l2 r1 r2 : List Char), ',' ∉ l1 → ',' ∉ l2 →
      l1 ++ ',' :: r1 = l2 ++ ',' :: r2 → l1 = l2 ∧ r1 = r2 := by
  intro l1
  induction l1 with
  | nil =>
    intro l2 r1 r2 _ h2 heq
    cases l2 with
    | nil =>
      simp only [List.nil_append, List.cons.injEq, true_and] at heq
      exact ⟨rfl, heq⟩
    | cons a t =>
      simp only [List.nil_append, List.cons_append, List.cons.injEq] at heq
      exact absurd (heq.1 ▸ List.mem_cons_self a t) h2
  | cons a t ih =>
    intro l2 r1 r2 h1 h2 heq
    cases l2 with
    | nil =>
      simp only [List.nil_append, List.cons_append, List.cons.injEq] at heq
      exact absurd (heq.1 ▸ List.mem_cons_self a t) h1
    | cons b u =>
      simp only [List.cons_append, List.cons.injEq] at heq
      obtain ⟨h3, h4⟩ := ih u r1 r2 (fun hm => h1 (List.mem_cons_of_mem _ hm))
        (fun hm => h2 (List.mem_cons_of_mem _ hm)) heq.2
      exact ⟨by rw [heq.1, h3], h4⟩

/-- Two coordinates with the same key are the same coordinate. -/
theorem pixelKey_injective (x y x1 y1 : Int) (hkey : pixelKey x y = pixelKey x1 y1) :
    x = x1 ∧ y = y1 := by
  have hdata := congrArg String.data hkey
  rw [pixelKey_data, pixelKey_data] at hdata
  obtain ⟨h1, h2⟩ := split_at_comma _ _ _ _ (comma_not_mem_intChars x)
    (comma_not_mem_intChars x1) hdata
  exact ⟨intChars_injective x x1 h1, intChars_injective y y1 h2⟩

/-! ## The keys of a reachable mapping -/

/-- Every key of the map is the key of an in-bounds coordinate. -/
def KeysInGrid (m : GoMap) : Prop :=
  ∀ k ∈ m, ∃ x y : Int, 0 ≤ x ∧ x < 32 ∧ 0 ≤ y ∧ y < 32 ∧ k = pixelKey x y

/-- The keys of the 32x32 in-bounds coordinates. -/
def gridKeys : Finset String :=
  (Finset.range 32 ×ˢ Finset.range 32).image (fun q => pixelKey (q.1 : Int) (q.2 : Int))

theorem gridKeys_card : gridKeys.card ≤ 1024 := by
  refine Finset.card_image_le.trans ?_
  simp

theorem keys_subset_gridKeys (m : GoMap) (hm : KeysInGrid m) : m.keys ⊆ gridKeys := by
  intro k hk
  obtain ⟨x, y, hx0, hx1, hy0, hy1, hkey⟩ := hm k (Finmap.mem_keys.1 hk)
  rw [gridKeys, Finset.mem_image]
  refine ⟨(x.toNat, y.toNat), ?_, ?_⟩
  · rw [Finset.mem_product, Finset.mem_range, Finset.mem_range]
    omega
  · rw [hkey]
    show pixelKey ((x.toNat : Nat) : Int) ((y.toNat : Nat) : Int) = pixelKey x y
    rw [Int.toNat_of_nonneg hx0, Int.toNat_of_nonneg hy0]

theorem card_entries_eq_card_keys (m : GoMap) : Multiset.card m.entries = m.keys.card := by
  show Multiset.card m.entries = Multiset.card (m.entries.keys)
  unfold Multiset.keys
  rw [Multiset.card_map]

theorem KeysInGrid_card (m : GoMap) (hm : KeysInGrid m) :
    Multiset.card m.entries ≤ 1024 ∧ m.keys.card ≤ 1024 := by
  have hk : m.keys.card ≤ 1024 :=
    (Finset.card_le_card (keys_subset_gridKeys m hm)).trans gridKeys_card
  exact ⟨(card_entries_eq_card_keys m).le.trans hk, hk⟩

theorem KeysInGrid_apply (s : CanvasState) (op : CanvasOp) (hs : CanvasInv s)
    (hk : KeysInGrid s.pixels) : KeysInGrid (op.apply s).pixels := by
  cases op with
  | update x y color now =>
    show KeysInGrid (UpdatePixel s x y color now).1.pixels
    by_cases hb : (x < 0 ∨ x ≥ s.canvas.Width ∨ y < 0 ∨ y ≥ s.canvas.Height)
    · have : (UpdatePixel s x y color now).1 = s := by
        unfold UpdatePixel
        rw [if_pos hb]
      rw [this]
      exact hk
    · rw [pixels_update_in s x y color now hb]
      have hin : 0 ≤ x ∧ x < 32 ∧ 0 ≤ y ∧ y < 32 := by
        rw [hs.1, hs.2.1] at hb
        simp only [CanvasWidth, CanvasHeight] at hb
        omega
      by_cases hcol : color = DefaultColor
      · rw [if_pos hcol]
        intro k hmem
        exact hk k (Finmap.mem_erase.1 hmem).2
      · rw [if_neg hcol]
        intro k hmem
        rcases Finmap.mem_insert.1 hmem with h0 | h0
        · exact ⟨x, y, hin.1, hin.2.1, hin.2.2.1, hin.2.2.2, h0⟩
        · exact hk k h0
  | clear now =>
    have : (CanvasOp.clear now).apply s = Clear s now := rfl
    rw [this]
    have hempty : (Clear s now).pixels = ∅ := by
      simp [Clear, Heap.make, CanvasState.pixels]
    rw [hempty]
    intro k hmem
    exact absurd hmem Finmap.not_mem_empty

theorem KeysInGrid_run (ops : List CanvasOp) :
    ∀ s : CanvasState, CanvasInv s → KeysInGrid s.pixels →
      KeysInGrid (runCanvas s ops).pixels := by
  induction ops with
  | nil => intro s _ hk; exact hk
  | cons op l ih =>
    intro s hs hk
    exact ih (op.apply s) (CanvasInv_apply s op hs) (KeysInGrid_apply s op hs hk)

theorem KeysInGrid_new (h : Heap) (now : Time) : KeysInGrid (NewPixelCanvas h now).pixels := by
  have hempty : (NewPixelCanvas h now).pixels = ∅ := by
    simp [NewPixelCanvas, Heap.make, CanvasState.pixels]
  rw [hempty]
  intro k hmem
  exact absurd hmem Finmap.not_mem_empty

/-! ## Canvas claims -/

/-- C1: on a 32x32 canvas, `UpdatePixel(x,y,c)` at an in-bounds coordinate returns true,
a `GetPixel(x,y)` right after it returns `c` (also when `c` is the background color), and
the last-update timestamp is the time of the call. -/
theorem UpdatePixel_inBounds (s : CanvasState) (x y : Int) (color : String) (now : Time)
    (hw : s.canvas.Width = CanvasWidth) (hh : s.canvas.Height = CanvasHeight)
    (hx : 0 ≤ x ∧ x < 32) (hy : 0 ≤ y ∧ y < 32) :
    (UpdatePixel s x y color now).2 = true ∧
    GetPixel (UpdatePixel s x y color now).1 x y = color ∧
    GetPixel (UpdatePixel s x y DefaultColor now).1 x y = DefaultColor ∧
    (UpdatePixel s x y color now).1.canvas.LastUpdate = now := by
  have hb := inBounds_of s x y hw hh hx hy
  have hget : ∀ c : String, GetPixel (UpdatePixel s x y c now).1 x y = c := by
    intro c
    have hc := canvas_update s x y c now
    have hb' : ¬ (x < 0 ∨ x ≥ (UpdatePixel s x y c now).1.canvas.Width ∨ y < 0 ∨
        y ≥ (UpdatePixel s x y c now).1.canvas.Height) := by
      rw [hc.1, hc.2.1]
      exact hb
    rw [GetPixel_in _ x y hb', pixels_update_in s x y c now hb]
    by_cases hcol : c = DefaultColor
    · rw [if_pos hcol, Finmap.lookup_erase]
      exact hcol.symm
    · rw [if_neg hcol, Finmap.lookup_insert]
      rfl
  refine ⟨?_, hget color, hget DefaultColor, ?_⟩
  · unfold UpdatePixel
    rw [if_neg hb]
  · unfold UpdatePixel
    rw [if_neg hb]

theorem UpdatePixel_inBounds_witness :
    (UpdatePixel blankCanvas 5 5 "#ff0000" 7).2 = true ∧
    GetPixel (UpdatePixel blankCanvas 5 5 "#ff0000" 7).1 5 5 = "#ff0000" ∧
    GetPixel (UpdatePixel blankCanvas 5 5 DefaultColor 7).1 5 5 = DefaultColor ∧
    (UpdatePixel blankCanvas 5 5 "#ff0000" 7).1.canvas.LastUpdate = 7 :=
  UpdatePixel_inBounds blankCanvas 5 5 "#ff0000" 7 rfl rfl (by decide) (by decide)

/-- C2: on a 32x32 canvas, `UpdatePixel` at a coordinate outside `[0,32)x[0,32)` returns
false and returns the store as it was: same heap (so same pixel mapping), same width,
height and last-update timestamp. -/
theorem UpdatePixel_outOfBounds (s : CanvasState) (x y : Int) (color : String) (now : Time)
    (hw : s.canvas.Width = CanvasWidth) (hh : s.canvas.Height = CanvasHeight)
    (hout : x < 0 ∨ x ≥ 32 ∨ y < 0 ∨ y ≥ 32) :
    UpdatePixel s x y color now = (s, false) := by
  unfold UpdatePixel
  rw [hw, hh]
  simp only [CanvasWidth, CanvasHeight]
  rw [if_pos hout]

theorem UpdatePixel_outOfBounds_witness :
    UpdatePixel blankCanvas 32 (-1) "#ff0000" 7 = (blankCanvas, false) :=
  UpdatePixel_outOfBounds blankCanvas 32 (-1) "#ff0000" 7 rfl rfl (by decide)

/-- C3: in every canvas state reached from `NewPixelCanvas()` by `UpdatePixel` and `Clear`
calls with arbitrary arguments, the pixel mapping has no entry whose value is the
background color. -/
theorem reachable_noBackground (h0 : Heap) (t0 : Time) (ops : List CanvasOp) (k : String) :
    (runCanvas (NewPixelCanvas h0 t0) ops).pixels.lookup k ≠ some DefaultColor :=
  fun hk => (CanvasInv_run ops _ (CanvasInv_new h0 t0)).2.2.2 k DefaultColor hk rfl

theorem reachable_noBackground_witness :
    (runCanvas (NewPixelCanvas blankCanvas.heap 0)
      [.update 1 1 DefaultColor 1, .update 2 2 "#ff0000" 2, .clear 3,
        .update 1 1 DefaultColor 4]).pixels.lookup "1,1" ≠ some DefaultColor :=
  reachable_noBackground blankCanvas.heap 0 _ "1,1"

/-- C4: in every canvas state reached from `NewPixelCanvas()` by `UpdatePixel` and `Clear`
calls, `GetPixels()` leaves the store as it is and returns a map equal to the store's
mapping; for every in-bounds `(x,y)` the returned map has an entry for `(x,y)` exactly
when `GetPixel(x,y)` is not the background color, and that entry's value is
`GetPixel(x,y)`; the returned map is a different object from the store's, so that
overwriting it does not change the store and later `UpdatePixel` and `Clear` calls do not
change it. -/
theorem GetPixels_snapshot (ord : Finset String → List String) (hord : RangeOrder ord)
    (h0 : Heap) (t0 : Time) (ops : List CanvasOp) :
    (GetPixels ord (runCanvas (NewPixelCanvas h0 t0) ops)).1.canvas =
        (runCanvas (NewPixelCanvas h0 t0) ops).canvas ∧
    (GetPixels ord (runCanvas (NewPixelCanvas h0 t0) ops)).1.pixels =
        (runCanvas (NewPixelCanvas h0 t0) ops).pixels ∧
    (GetPixels ord (runCanvas (NewPixelCanvas h0 t0) ops)).1.heap.cell
        (GetPixels ord (runCanvas (NewPixelCanvas h0 t0) ops)).2 =
      (runCanvas (NewPixelCanvas h0 t0) ops).pixels ∧
    (∀ x y : Int, 0 ≤ x → x < 32 → 0 ≤ y → y < 32 →
      (pixelKey x y ∈ (GetPixels ord (runCanvas (NewPixelCanvas h0 t0) ops)).1.heap.cell
          (GetPixels ord (runCanvas (NewPixelCanvas h0 t0) ops)).2 ↔
        GetPixel (runCanvas (NewPixelCanvas h0 t0) ops) x y ≠ DefaultColor) ∧
      ∀ v, ((GetPixels ord (runCanvas (NewPixelCanvas h0 t0) ops)).1.heap.cell
          (GetPixels ord (runCanvas (NewPixelCanvas h0 t0) ops)).2).lookup (pixelKey x y) =
            some v →
        v = GetPixel (runCanvas (NewPixelCanvas h0 t0) ops) x y) ∧
    (GetPixels ord (runCanvas (NewPixelCanvas h0 t0) ops)).2 ≠
      (GetPixels ord (runCanvas (NewPixelCanvas h0 t0) ops)).1.canvas.Pixels ∧
    (∀ m : GoMap,
      CanvasState.pixels
        { (GetPixels ord (runCanvas (NewPixelCanvas h0 t0) ops)).1 with
          heap := (GetPixels ord (runCanvas (NewPixelCanvas h0 t0) ops)).1.heap.write
            (GetPixels ord (runCanvas (NewPixelCanvas h0 t0) ops)).2 m } =
        (runCanvas (NewPixelCanvas h0 t0) ops).pixels) ∧
    (∀ later : List CanvasOp,
      (runCanvas (GetPixels ord (runCanvas (NewPixelCanvas h0 t0) ops)).1 later).heap.cell
          (GetPixels ord (runCanvas (NewPixelCanvas h0 t0) ops)).2 =
        (runCanvas (NewPixelCanvas h0 t0) ops).pixels) := by
  generalize hs : runCanvas (NewPixelCanvas h0 t0) ops = s
  have hinv : CanvasInv s := hs ▸ CanvasInv_run ops _ (CanvasInv_new h0 t0)
  obtain ⟨hw, hh, hp, hn⟩ := hinv
  have hcell := GetPixels_cell ord hord s
  obtain ⟨hr, hcan, hnext, hother⟩ := GetPixels_ref ord s
  have hne : s.canvas.Pixels ≠ s.heap.next := Nat.ne_of_lt hp
  have hpix : (GetPixels ord s).1.pixels = s.pixels := by
    show (GetPixels ord s).1.heap.cell (GetPixels ord s).1.canvas.Pixels = _
    rw [hcan, hother _ hne]
    rfl
  refine ⟨hcan, hpix, hcell, ?_, ?_, ?_, ?_⟩
  · intro x y hx0 hx1 hy0 hy1
    have hb := inBounds_of s x y hw hh ⟨hx0, hx1⟩ ⟨hy0, hy1⟩
    rw [hcell, GetPixel_in s x y hb]
    constructor
    · rw [Finmap.mem_iff]
      constructor
      · rintro ⟨v, hv⟩
        rw [hv]
        exact hn _ v hv
      · intro hv
        cases hl : s.pixels.lookup (pixelKey x y) with
        | none => rw [hl] at hv; exact absurd rfl hv
        | some v => exact ⟨v, rfl⟩
    · intro v hv
      rw [hv]
      rfl
  · rw [hr, hcan]
    exact fun h => hne h.symm
  · intro m
    show Function.update (GetPixels ord s).1.heap.cell (GetPixels ord s).2 m
        (GetPixels ord s).1.canvas.Pixels = _
    rw [hr, hcan, Function.update_noteq hne, hother _ hne]
    rfl
  · intro later
    have hap : Apart (GetPixels ord s).1 (GetPixels ord s).2 := by
      refine ⟨?_, ?_⟩
      · rw [hnext, hr]
        exact Nat.lt_succ_self _
      · rw [hr, hcan]
        exact fun h => hne h.symm
    rw [Apart_run _ later _ hap, hcell]

theorem GetPixels_snapshot_witness :
    (GetPixels sortedOrder (runCanvas (NewPixelCanvas blankCanvas.heap 0)
      [.update 2 2 "#ff0000" 2])).1.pixels =
        (runCanvas (NewPixelCanvas blankCanvas.heap 0) [.update 2 2 "#ff0000" 2]).pixels :=
  (GetPixels_snapshot sortedOrder sortedOrder_rangeOrder blankCanvas.heap 0
    [.update 2 2 "#ff0000" 2]).2.1

/-- C5: `GetPixel(x,y)` returns the background color when `(x,y)` is outside the canvas
or has no entry in the mapping, and the stored color otherwise; on a new canvas and right
after `Clear()` it returns the background color for every coordinate. -/
theorem GetPixel_spec (s : CanvasState) (x y : Int) :
    (x < 0 ∨ x ≥ s.canvas.Width ∨ y < 0 ∨ y ≥ s.canvas.Height →
      GetPixel s x y = DefaultColor) ∧
    (s.pixels.lookup (pixelKey x y) = none → GetPixel s x y = DefaultColor) ∧
    (∀ color, 0 ≤ x → x < s.canvas.Width → 0 ≤ y → y < s.canvas.Height →
      s.pixels.lookup (pixelKey x y) = some color → GetPixel s x y = color) ∧
    (∀ h now, GetPixel (NewPixelCanvas h now) x y = DefaultColor) ∧
    (∀ now, GetPixel (Clear s now) x y = DefaultColor) := by
  have hnone : ∀ t : CanvasState, t.pixels.lookup (pixelKey x y) = none →
      GetPixel t x y = DefaultColor := by
    intro t ht
    unfold GetPixel
    split
    · rfl
    · rw [ht]
  refine ⟨?_, hnone s, ?_, ?_, ?_⟩
  · intro hout
    unfold GetPixel
    rw [if_pos hout]
  · intro color hx0 hx1 hy0 hy1 hl
    have hb : ¬ (x < 0 ∨ x ≥ s.canvas.Width ∨ y < 0 ∨ y ≥ s.canvas.Height) := by omega
    rw [GetPixel_in s x y hb, hl]
    rfl
  · intro h now
    apply hnone
    simp [NewPixelCanvas, Heap.make, CanvasState.pixels]
  · intro now
    apply hnone
    simp [Clear, Heap.make, CanvasState.pixels]

theorem GetPixel_spec_witness :
    GetPixel (Clear (UpdatePixel blankCanvas 5 5 "#ff0000" 7).1 8) 5 5 = DefaultColor :=
  (GetPixel_spec (UpdatePixel blankCanvas 5 5 "#ff0000" 7).1 5 5).2.2.2.2 8

/-- C6: on a 32x32 canvas, after `UpdatePixel(x,y,"#0d1117")` at an in-bounds coordinate
the mapping has no entry for `(x,y)`, a following `GetPixels()` snapshot has none either,
whether or not `(x,y)` was painted before, and every other entry of the mapping is as it
was. -/
theorem UpdatePixel_background (ord : Finset String → List String) (hord : RangeOrder ord)
    (s : CanvasState) (x y : Int) (now : Time)
    (hw : s.canvas.Width = CanvasWidth) (hh : s.canvas.Height = CanvasHeight)
    (hx : 0 ≤ x ∧ x < 32) (hy : 0 ≤ y ∧ y < 32) :
    (UpdatePixel s x y DefaultColor now).1.pixels.lookup (pixelKey x y) = none ∧
    pixelKey x y ∉ (GetPixels ord (UpdatePixel s x y DefaultColor now).1).1.heap.cell
      (GetPixels ord (UpdatePixel s x y DefaultColor now).1).2 ∧
    ∀ k, k ≠ pixelKey x y →
      (UpdatePixel s x y DefaultColor now).1.pixels.lookup k = s.pixels.lookup k := by
  have hb := inBounds_of s x y hw hh hx hy
  have hp := pixels_update_in s x y DefaultColor now hb
  rw [if_pos rfl] at hp
  refine ⟨?_, ?_, ?_⟩
  · rw [hp, Finmap.lookup_erase]
  · rw [GetPixels_cell ord hord, hp]
    exact Finmap.not_mem_erase_self
  · intro k hk
    rw [hp, Finmap.lookup_erase_ne hk]

theorem UpdatePixel_background_witness :
    (UpdatePixel (UpdatePixel blankCanvas 5 5 "#ff0000" 7).1 5 5 DefaultColor 8).1.pixels.lookup
      (pixelKey 5 5) = none :=
  (UpdatePixel_background sortedOrder sortedOrder_rangeOrder
    (UpdatePixel blankCanvas 5 5 "#ff0000" 7).1 5 5 8
    (canvas_update blankCanvas 5 5 "#ff0000" 7).1 (canvas_update blankCanvas 5 5 "#ff0000" 7).2.1
    (by decide) (by decide)).1

/-! ## Hub claims -/

/-- C7, as the code has it: in a hub state whose registered agents all have an open queue,
one pass of `broadcastToAll(m)` does not panic and ends with: every registered agent whose queue had
room is still registered and has `m` appended once at the tail of its queue, the earlier
items in their order; every registered agent whose queue was full is out of the registry
with its queue closed and without `m`; agents outside the registry are untouched. -/
theorem broadcastToAll_pass {B : Type} (ord : Finset Ptr → List Ptr) (hord : RangeOrder ord)
    (h : HubState B) (m : B) (hopen : ∀ p ∈ h.clients, (h.send p).closed = false) :
    ∃ h1, broadcastToAll ord h m = .ok h1 ∧
      (∀ p ∈ h.clients, (h.send p).buf.length < sendCap →
        p ∈ h1.clients ∧ h1.send p = { buf := (h.send p).buf ++ [m], closed := false }) ∧
      (∀ p ∈ h.clients, sendCap ≤ (h.send p).buf.length →
        p ∉ h1.clients ∧ h1.send p = { buf := (h.send p).buf, closed := true }) ∧
      (∀ p, p ∉ h.clients → p ∉ h1.clients ∧ h1.send p = h.send p) ∧
      h1.canvas = h.canvas ∧ h1.clientID = h.clientID := by
  refine ⟨fanOut h.clients h m, broadcastToAll_eq ord hord h m hopen, ?_, ?_, ?_, rfl, rfl⟩
  · intro p hp hroom
    refine ⟨?_, ?_⟩
    · rw [mem_fanOut]
      exact ⟨hp, fun hc => absurd hc.2 (Nat.not_le.2 hroom)⟩
    · rw [fanOut_send_of_room _ _ _ _ hp hroom, hopen p hp]
  · intro p hp hfull
    refine ⟨?_, fanOut_send_of_full _ _ _ _ hp hfull⟩
    rw [mem_fanOut]
    exact fun hc => hc.2 ⟨hp, hfull⟩
  · intro p hp
    refine ⟨?_, fanOut_send_of_not_mem _ _ _ _ hp⟩
    rw [mem_fanOut]
    exact fun hc => hp hc.1

theorem broadcastToAll_pass_witness :
    ∃ h1, broadcastToAll sortedOrder demoHub (NewCanvasClearMessage 3) = .ok h1 ∧
      1 ∈ h1.clients ∧
      h1.send 1 = { buf := [] ++ [NewCanvasClearMessage 3], closed := false } := by
  obtain ⟨h1, hrun, hroom, _⟩ :=
    broadcastToAll_pass sortedOrder sortedOrder_rangeOrder demoHub (NewCanvasClearMessage 3)
      (fun _ _ => rfl)
  exact ⟨h1, hrun, hroom 1 (by decide) (by decide)⟩

/-- C7 fails as stated: client 1 is registered and its queue has room, but the queue is
closed, and the fan-out pass panics instead of appending the message. -/
theorem broadcastToAll_closed_queue_panics :
    1 ∈ selfEvictedHub.clients ∧ (selfEvictedHub.send 1).buf.length < sendCap ∧
    broadcastToAll sortedOrder selfEvictedHub (NewCanvasClearMessage 3) =
      .error .sendOnClosedChannel :=
  ⟨by decide, by decide,
    broadcastToAll_closed sortedOrder sortedOrder_rangeOrder selfEvictedHub _ 1 (by decide) rfl⟩

/-- C9, as the code has it: when the registry is empty and `A` is fresh, the `register`
case leaves the registry `{A}` and puts exactly two messages into the queue of `A`: a
canvas-snapshot message carrying the current mapping of the canvas (the empty mapping when
nothing is painted), then a user-list message with the roster `[A]`; none of them is a
user-joined message. -/
theorem register_first {B : Type} (marshal : Message → Option B) (env : Env)
    (h : HubState B) (A : Ptr) (hv : env.Valid) (hreg : h.clients = ∅) (hf : Fresh h A)
    (hm : ∀ msg, ∃ b, marshal msg = some b)
    (htag : ∀ m1 m2 b, marshal m1 = some b → marshal m2 = some b → m1.Typ = m2.Typ) :
    ∃ h1 bS bL, register marshal env h A = .ok h1 ∧
      h1.clients = {A} ∧
      marshal (NewCanvasStateMessage h.canvas.pixels (env.now 0)) = some bS ∧
      (h.canvas.pixels = ∅ → marshal (NewCanvasStateMessage ∅ (env.now 0)) = some bS) ∧
      marshal (NewUserListMessage [h.clientID A] (env.now 2)) = some bL ∧
      h1.send A = { buf := [bS, bL], closed := false } ∧
      ∀ b ∈ (h1.send A).buf, ∀ msg, marshal msg = some b →
        msg.Typ ≠ MessageTypeUserJoined := by
  obtain ⟨bS, hS⟩ := hm (NewCanvasStateMessage h.canvas.pixels (env.now 0))
  obtain ⟨bJ, hJ⟩ := hm (NewUserJoinedMessage (h.clientID A) (env.now 1))
  obtain ⟨bL, hL⟩ := hm (NewUserListMessage
    ((env.ord 0 (insert A h.clients)).map h.clientID) (env.now 2))
  have ho : RegistryOpen h := by
    intro p hp
    rw [hreg] at hp
    exact absurd hp (Finset.not_mem_empty p)
  have hrun := register_eq marshal env h A bS bJ bL hv ho hf hS hJ hL
  obtain ⟨hq, hin, _, hsub, _⟩ := register_queues env.keyOrd h A bS bJ bL hf.1
  have hroster : env.ord 0 (insert A h.clients) = [A] := by
    apply eq_singleton_of_nodup _ _ ((hv.1 0) _).1
    intro x
    rw [((hv.1 0) _).2 x, hreg]
    simp
  rw [hroster] at hL
  refine ⟨_, bS, bL, hrun, ?_, hS, ?_, hL, hq, ?_⟩
  · ext p
    rw [Finset.mem_singleton]
    constructor
    · intro hp
      rcases hsub p hp with h0 | h0
      · exact h0
      · rw [hreg] at h0
        exact absurd h0 (Finset.not_mem_empty p)
    · intro hp
      rw [hp]
      exact hin
  · intro hemp
    rw [← hemp]
    exact hS
  · intro b hb msg hmsg
    rw [hq] at hb
    rcases List.mem_pair.1 hb with h0 | h0
    · rw [htag _ _ b hmsg (h0 ▸ hS)]
      exact canvasState_ne_userJoined
    · rw [htag _ _ b hmsg (h0 ▸ hL)]
      exact userList_ne_userJoined

theorem register_first_witness :
    ∃ h1 bS bL, register plainCodec demoEnv paintedHub 7 = .ok h1 ∧
      h1.clients = {7} ∧
      plainCodec (NewCanvasStateMessage paintedHub.canvas.pixels (demoEnv.now 0)) = some bS ∧
      (paintedHub.canvas.pixels = ∅ →
        plainCodec (NewCanvasStateMessage ∅ (demoEnv.now 0)) = some bS) ∧
      plainCodec (NewUserListMessage [paintedHub.clientID 7] (demoEnv.now 2)) = some bL ∧
      h1.send 7 = { buf := [bS, bL], closed := false } ∧
      ∀ b ∈ (h1.send 7).buf, ∀ msg, plainCodec msg = some b →
        msg.Typ ≠ MessageTypeUserJoined :=
  register_first plainCodec demoEnv paintedHub 7 demoEnv_valid rfl
    ⟨Finset.not_mem_empty 7, rfl, rfl⟩ (fun msg => ⟨msg, rfl⟩)
    (fun m1 m2 b h1 h2 => by
      cases h1
      cases h2
      rfl)

/-- C9 fails as stated: a hub with an empty registry whose canvas has the pixel (1,1)
painted sends the fresh client 7 a canvas snapshot whose pixel mapping is not empty. -/
theorem register_first_snapshot_not_empty :
    paintedHub.clients = ∅ ∧ Fresh paintedHub 7 ∧
    ∃ h1 pixels bL, register plainCodec demoEnv paintedHub 7 = .ok h1 ∧
      (h1.send 7).buf = [NewCanvasStateMessage pixels 0, bL] ∧ pixels ≠ ∅ := by
  have hf : Fresh paintedHub 7 := ⟨Finset.not_mem_empty 7, rfl, rfl⟩
  have ho : RegistryOpen paintedHub := fun p hp => absurd hp (Finset.not_mem_empty p)
  have hrun := register_eq plainCodec demoEnv paintedHub 7 _ _ _ demoEnv_valid ho hf rfl rfl rfl
  obtain ⟨hq, _⟩ := register_queues demoEnv.keyOrd paintedHub 7
    (NewCanvasStateMessage paintedHub.canvas.pixels (demoEnv.now 0))
    (NewUserJoinedMessage (paintedHub.clientID 7) (demoEnv.now 1))
    (NewUserListMessage ((demoEnv.ord 0 (insert 7 paintedHub.clients)).map paintedHub.clientID)
      (demoEnv.now 2)) hf.1
  refine ⟨rfl, hf, _, paintedHub.canvas.pixels,
    NewUserListMessage ((demoEnv.ord 0 (insert 7 paintedHub.clients)).map paintedHub.clientID)
      (demoEnv.now 2), hrun, ?_, ?_⟩
  · rw [hq]
    rfl
  · intro hemp
    have hl := paintedHub_pixels
    rw [hemp] at hl
    simp at hl

/-- C10, as the code has it: in a hub state whose registered agents all have an open
queue, the `register` case for a fresh agent `B` appends to the queue of every previously registered agent with
at least two free slots a user-joined message carrying the identity of `B`, then a
user-list message; the queue of `B` holds the canvas snapshot with the current mapping of
the canvas, then the same user-list message, and no user-joined message; the roster lists
the identities of an enumeration without repetition of the previously registered agents
and `B` (for a registry that held only `A`: `A` and `B`, in some order). -/
theorem register_next {M : Type} (marshal : Message → Option M) (env : Env)
    (h : HubState M) (B : Ptr) (hv : env.Valid)
    (hopen : ∀ p ∈ h.clients, (h.send p).closed = false) (hf : Fresh h B)
    (hm : ∀ msg, ∃ b, marshal msg = some b)
    (htag : ∀ m1 m2 b, marshal m1 = some b → marshal m2 = some b → m1.Typ = m2.Typ) :
    ∃ h1 bS bJ bL roster, register marshal env h B = .ok h1 ∧
      marshal (NewCanvasStateMessage h.canvas.pixels (env.now 0)) = some bS ∧
      marshal (NewUserJoinedMessage (h.clientID B) (env.now 1)) = some bJ ∧
      marshal (NewUserListMessage roster (env.now 2)) = some bL ∧
      (∃ l : List Ptr, l.Nodup ∧ (∀ p, p ∈ l ↔ p ∈ h.clients ∨ p = B) ∧
        roster = l.map h.clientID) ∧
      (∀ A, h.clients = {A} → roster.Perm [h.clientID A, h.clientID B]) ∧
      (∀ A ∈ h.clients, (h.send A).buf.length + 2 ≤ sendCap →
        A ∈ h1.clients ∧
        h1.send A = { buf := (h.send A).buf ++ [bJ, bL], closed := false }) ∧
      B ∈ h1.clients ∧
      h1.send B = { buf := [bS, bL], closed := false } ∧
      ∀ b ∈ (h1.send B).buf, ∀ msg, marshal msg = some b →
        msg.Typ ≠ MessageTypeUserJoined := by
  obtain ⟨bS, hS⟩ := hm (NewCanvasStateMessage h.canvas.pixels (env.now 0))
  obtain ⟨bJ, hJ⟩ := hm (NewUserJoinedMessage (h.clientID B) (env.now 1))
  obtain ⟨bL, hL⟩ := hm (NewUserListMessage
    ((env.ord 0 (insert B h.clients)).map h.clientID) (env.now 2))
  have hrun := register_eq marshal env h B bS bJ bL hv hopen hf hS hJ hL
  obtain ⟨hq, hin, hold, _, _⟩ := register_queues env.keyOrd h B bS bJ bL hf.1
  have hnd := ((hv.1 0) (insert B h.clients)).1
  have hmem : ∀ p, p ∈ env.ord 0 (insert B h.clients) ↔ p ∈ h.clients ∨ p = B := by
    intro p
    rw [((hv.1 0) (insert B h.clients)).2 p, Finset.mem_insert]
    tauto
  refine ⟨_, bS, bJ, bL, _, hrun, hS, hJ, hL, ⟨_, hnd, hmem, rfl⟩, ?_, ?_, hin, hq, ?_⟩
  · intro A hA
    have hAB : A ≠ B := by
      intro hab
      apply hf.1
      rw [hA, ← hab]
      exact Finset.mem_singleton_self A
    have hperm : (env.ord 0 (insert B h.clients)).Perm [A, B] := by
      apply (List.perm_ext_iff_of_nodup hnd _).2
      · intro p
        rw [hmem, hA]
        simp
      · simp [hAB]
    exact hperm.map h.clientID
  · intro A hA hroom
    obtain ⟨h1, h2⟩ := hold A hA hroom
    refine ⟨h2, ?_⟩
    rw [h1, hopen A hA]
  · intro b hb msg hmsg
    rw [hq] at hb
    rcases List.mem_pair.1 hb with h0 | h0
    · rw [htag _ _ b hmsg (h0 ▸ hS)]
      exact canvasState_ne_userJoined
    · rw [htag _ _ b hmsg (h0 ▸ hL)]
      exact userList_ne_userJoined

theorem register_next_witness :
    ∃ h1 bS bJ bL roster, register plainCodec demoEnv demoHub 2 = .ok h1 ∧
      plainCodec (NewCanvasStateMessage demoHub.canvas.pixels (demoEnv.now 0)) = some bS ∧
      plainCodec (NewUserJoinedMessage (demoHub.clientID 2) (demoEnv.now 1)) = some bJ ∧
      plainCodec (NewUserListMessage roster (demoEnv.now 2)) = some bL ∧
      roster.Perm [demoHub.clientID 1, demoHub.clientID 2] ∧
      h1.send 1 = { buf := [] ++ [bJ, bL], closed := false } ∧
      h1.send 2 = { buf := [bS, bL], closed := false } := by
  obtain ⟨h1, bS, bJ, bL, roster, hrun, hS, hJ, hL, _, hpair, hold, _, hq, _⟩ :=
    register_next plainCodec demoEnv demoHub 2 demoEnv_valid (fun _ _ => rfl)
      ⟨by decide, rfl, rfl⟩ (fun msg => ⟨msg, rfl⟩)
      (fun m1 m2 b h1 h2 => by
        cases h1
        cases h2
        rfl)
  exact ⟨h1, bS, bJ, bL, roster, hrun, hS, hJ, hL, hpair 1 rfl,
    (hold 1 (by decide) (by decide)).2, hq⟩

/-- C10 fails as stated: client 1 is registered with two free slots in a closed queue,
client 2 is fresh, and the `register` case for client 2 panics in the fan-out of the
join notice. -/
theorem register_closed_queue_panics :
    1 ∈ selfEvictedHub.clients ∧ (selfEvictedHub.send 1).buf.length + 2 ≤ sendCap ∧
    Fresh selfEvictedHub 2 ∧
    register plainCodec demoEnv selfEvictedHub 2 = .error .sendOnClosedChannel := by
  refine ⟨by decide, by decide, ⟨by decide, rfl, rfl⟩, ?_⟩
  have hj : ∀ (cv : CanvasState) (b j : Message),
      broadcastToOthers (demoEnv.ord 1)
        { clients := insert 2 selfEvictedHub.clients, canvas := cv,
          clientID := selfEvictedHub.clientID,
          send := Function.update selfEvictedHub.send 2 { buf := [b], closed := false } }
        j 2 = .error .sendOnClosedChannel := by
    intro cv b j
    have hmem : (1 : Ptr) ∈ insert 2 selfEvictedHub.clients := by decide
    exact broadcastToOthers_closed (demoEnv.ord 1) (demoEnv_valid.1 1) _ j 2 1 hmem
      (by decide) rfl
  have htry : ∀ b : Message, (selfEvictedHub.send 2).trySend b =
      .ok (some { buf := [b], closed := false }) := by
    intro b
    rfl
  unfold register
  simp only [plainCodec, htry, hj]

/-- C8: every sequence of hub steps from `NewHub()` (registration of a fresh agent with an
open, empty queue; unregistration of any agent; generic broadcast; pixel event; a
dequeue by an outbound pump) runs without a panic, so no step closes a queue that is
already closed; in the state it reaches every registered agent has an open queue; and
for every state it went through, the agents registered there that are no longer
registered have a closed queue, and the queues closed there are still closed and belong
to no registered agent. -/
theorem registry_queue_consistent {B : Type} (marshal : Message → Option B)
    (clientID : Ptr → String) (send : Ptr → Chan B) (heap : Heap) (now : Time)
    (trace : List (Env × HubEvent B))
    (hadm : Admissible marshal (NewHub clientID send heap now) trace) :
    ∃ h, run marshal (NewHub clientID send heap now) trace = .ok h ∧
      (∀ p ∈ h.clients, (h.send p).closed = false) ∧
      ∀ n, ∃ hn, run marshal (NewHub clientID send heap now) (trace.take n) = .ok hn ∧
        (∀ p ∈ hn.clients, p ∉ h.clients → (h.send p).closed = true) ∧
        (∀ p, (hn.send p).closed = true → (h.send p).closed = true ∧ p ∉ h.clients) := by
  have hinit : RegistryOpen (NewHub clientID send heap now) :=
    fun p hp => absurd hp (Finset.not_mem_empty p)
  obtain ⟨h, hrun, ho, hall⟩ := run_sound marshal trace _ hinit hadm
  refine ⟨h, hrun, ho, ?_⟩
  intro n
  obtain ⟨hn, hrn, hev⟩ := hall n
  refine ⟨hn, hrn, hev.1, ?_⟩
  intro p hc
  have hc' := hev.2 p hc
  refine ⟨hc', ?_⟩
  intro hp
  rw [ho p hp] at hc'
  exact Bool.noConfusion hc'

theorem registry_queue_consistent_witness :
    ∃ h, run plainCodec (NewHub (fun p => toString p) (fun _ => Chan.new) blankCanvas.heap 0)
        [(demoEnv, .register 1), (demoEnv, .broadcast (NewTextUpdateMessage "hi" 9)),
          (demoEnv, .unregister 1), (demoEnv, .unregister 1)] = .ok h ∧
      ∀ p ∈ h.clients, (h.send p).closed = false := by
  obtain ⟨h, hrun, ho, _⟩ := registry_queue_consistent plainCodec (fun p => toString p)
    (fun _ => Chan.new) blankCanvas.heap 0
    [(demoEnv, .register 1), (demoEnv, .broadcast (NewTextUpdateMessage "hi" 9)),
      (demoEnv, .unregister 1), (demoEnv, .unregister 1)]
    ⟨demoEnv_valid, ⟨Finset.not_mem_empty 1, rfl, rfl⟩, fun _ _ =>
      ⟨demoEnv_valid, trivial, fun _ _ =>
        ⟨demoEnv_valid, trivial, fun _ _ => ⟨demoEnv_valid, trivial, fun _ _ => trivial⟩⟩⟩⟩
  exact ⟨h, hrun, ho⟩

/-- C12: on a hub whose canvas is 32x32, `HandlePixelMessage` for a pixel-update event
with a coordinate outside `[0,32)x[0,32)` returns the hub state it was given: canvas
mapping and timestamp, registry and every queue are the same, nothing is broadcast and
nobody is evicted. -/
theorem HandlePixelMessage_outOfBounds {B : Type} (marshal : Message → Option B) (env : Env)
    (h : HubState B) (msg : Message) (client : Ptr)
    (hw : h.canvas.canvas.Width = CanvasWidth) (hh : h.canvas.canvas.Height = CanvasHeight)
    (ht : msg.Typ = MessageTypePixelUpdate)
    (hout : msg.X < 0 ∨ msg.X ≥ 32 ∨ msg.Y < 0 ∨ msg.Y ≥ 32) :
    HandlePixelMessage marshal env h msg client = .ok h := by
  unfold HandlePixelMessage
  rw [if_pos ht]
  simp only [UpdatePixel_outOfBounds_eq h.canvas msg.X msg.Y msg.Color (env.now 0) hw hh hout]
  rfl

theorem HandlePixelMessage_outOfBounds_witness :
    HandlePixelMessage plainCodec demoEnv demoHub
      (NewPixelUpdateMessage 32 0 "#ff0000" "mallory" 0) 1 = .ok demoHub :=
  HandlePixelMessage_outOfBounds plainCodec demoEnv demoHub
    (NewPixelUpdateMessage 32 0 "#ff0000" "mallory" 0) 1 rfl rfl rfl (by decide)

/-- C14: for an agent that is not in the registry the `unregister` case returns the hub
state it was given (registry, canvas and every queue, the agent's own included, are the
same: nothing is broadcast, nothing is closed, no panic); hence whenever an
unregistration has returned, the agent is out of the registry and unregistering it again
returns the same state, with no further broadcast or close; and from a state whose
registered queues are open the first unregistration does return. -/
theorem unregister_idempotent {B : Type} (marshal : Message → Option B) (env env2 : Env)
    (h : HubState B) (client : Ptr) :
    (client ∉ h.clients → unregister marshal env h client = .ok h) ∧
    (∀ h1, unregister marshal env h client = .ok h1 →
      client ∉ h1.clients ∧ unregister marshal env2 h1 client = .ok h1) ∧
    (env.Valid → (∀ p ∈ h.clients, (h.send p).closed = false) →
      ∃ h1, unregister marshal env h client = .ok h1) := by
  refine ⟨unregister_absent marshal env h client, ?_, ?_⟩
  · intro h1 hrun
    have hn := unregister_not_mem marshal env h h1 client hrun
    exact ⟨hn, unregister_absent marshal env2 h1 client hn⟩
  · intro hv ho
    obtain ⟨h1, hrun, _⟩ := StepsTo_unregister marshal env h client hv ho
    exact ⟨h1, hrun⟩

theorem unregister_idempotent_witness :
    unregister plainCodec demoEnv demoHub 5 = .ok demoHub ∧
    ∃ h1, unregister plainCodec demoEnv demoHub 1 = .ok h1 ∧
      unregister plainCodec demoEnv h1 1 = .ok h1 := by
  obtain ⟨habsent, htwice, hret⟩ := unregister_idempotent plainCodec demoEnv demoEnv demoHub 1
  obtain ⟨h1, hrun⟩ := hret demoEnv_valid (fun _ _ => rfl)
  exact ⟨unregister_absent plainCodec demoEnv demoHub 5 (by decide), h1, hrun,
    (htwice h1 hrun).2⟩

/-- C17: the eight message type tags are pairwise distinct, and each constructor returns
the message with its own tag, the fields of its variant equal to the arguments, the
construction time as timestamp, and every other field zero (empty string, 0, nil). -/
theorem message_constructors (content clientID color : String) (userList : List String)
    (pixels : GoMap) (x y : Int) (now : Time) :
    [MessageTypeTextUpdate, MessageTypeUserJoined, MessageTypeUserLeft, MessageTypeHeartbeat,
      MessageTypeUserList, MessageTypePixelUpdate, MessageTypeCanvasState,
      MessageTypeCanvasClear].Nodup ∧
    NewTextUpdateMessage content now =
      { Typ := MessageTypeTextUpdate, Content := content, ClientID := "", UserList := none,
        Timestamp := now, X := 0, Y := 0, Color := "", Pixels := none } ∧
    NewUserJoinedMessage clientID now =
      { Typ := MessageTypeUserJoined, Content := "", ClientID := clientID, UserList := none,
        Timestamp := now, X := 0, Y := 0, Color := "", Pixels := none } ∧
    NewUserLeftMessage clientID now =
      { Typ := MessageTypeUserLeft, Content := "", ClientID := clientID, UserList := none,
        Timestamp := now, X := 0, Y := 0, Color := "", Pixels := none } ∧
    NewUserListMessage userList now =
      { Typ := MessageTypeUserList, Content := "", ClientID := "", UserList := some userList,
        Timestamp := now, X := 0, Y := 0, Color := "", Pixels := none } ∧
    NewPixelUpdateMessage x y color clientID now =
      { Typ := MessageTypePixelUpdate, Content := "", ClientID := clientID, UserList := none,
        Timestamp := now, X := x, Y := y, Color := color, Pixels := none } ∧
    NewCanvasStateMessage pixels now =
      { Typ := MessageTypeCanvasState, Content := "", ClientID := "", UserList := none,
        Timestamp := now, X := 0, Y := 0, Color := "", Pixels := some pixels } ∧
    NewCanvasClearMessage now =
      { Typ := MessageTypeCanvasClear, Content := "", ClientID := "", UserList := none,
        Timestamp := now, X := 0, Y := 0, Color := "", Pixels := none } :=
  ⟨by decide, rfl, rfl, rfl, rfl, rfl, rfl, rfl⟩

theorem message_constructors_witness :
    (NewPixelUpdateMessage 5 6 "#ff0000" "alice" 9).Typ = "pixel_update" ∧
    (NewPixelUpdateMessage 5 6 "#ff0000" "alice" 9).Content = "" :=
  ⟨congrArg Message.Typ
      (message_constructors "" "alice" "#ff0000" [] ∅ 5 6 9).2.2.2.2.2.1,
    congrArg Message.Content
      (message_constructors "" "alice" "#ff0000" [] ∅ 5 6 9).2.2.2.2.2.1⟩

/-- C20: two inbound events that agree on type, x, y and color, whatever their
`client_id`, `content`, `user_list`, `pixels` and `timestamp` fields, are handled alike
by `HandlePixelMessage` for the same sender in the same environment: same result, hence
same canvas and same queues; they are handled alike by the inbound pump too, which
overwrites the timestamp; and the pixel-update message that is fanned out is built from
the event's x, y and color and from the `ID` of the sending client. -/
theorem HandlePixelMessage_author {B : Type} (marshal : Message → Option B)
    (unmarshal : B → Option Message) (env : Env) (stamp : Time) (h : HubState B)
    (msg1 msg2 : Message) (client : Ptr) (ht : msg1.Typ = msg2.Typ) (hx : msg1.X = msg2.X)
    (hy : msg1.Y = msg2.Y) (hc : msg1.Color = msg2.Color) :
    HandlePixelMessage marshal env h msg1 client =
      HandlePixelMessage marshal env h msg2 client ∧
    (∀ (frame1 frame2 : B) (intake : Bool),
      unmarshal frame1 = some msg1 → unmarshal frame2 = some msg2 →
      msg1.Typ = MessageTypePixelUpdate ∨ msg1.Typ = MessageTypeCanvasClear →
      readPumpPass marshal unmarshal env stamp h client (some frame1) intake =
        readPumpPass marshal unmarshal env stamp h client (some frame2) intake) ∧
    (msg1.Typ = MessageTypePixelUpdate →
      (UpdatePixel h.canvas msg1.X msg1.Y msg1.Color (env.now 0)).2 = true →
      ∀ b, marshal (NewPixelUpdateMessage msg1.X msg1.Y msg1.Color (h.clientID client)
          (env.now 1)) = some b →
        (NewPixelUpdateMessage msg1.X msg1.Y msg1.Color (h.clientID client)
          (env.now 1)).ClientID = h.clientID client ∧
        HandlePixelMessage marshal env h msg2 client =
          broadcastToAll (env.ord 0)
            { h with canvas := (UpdatePixel h.canvas msg1.X msg1.Y msg1.Color (env.now 0)).1 }
            b) := by
  have hcongr := HandlePixelMessage_congr marshal env h msg1 msg2 client ht hx hy hc
  refine ⟨hcongr, ?_, ?_⟩
  · intro frame1 frame2 intake h1 h2 hpix
    have hpix2 : msg2.Typ = MessageTypePixelUpdate ∨ msg2.Typ = MessageTypeCanvasClear := by
      rw [← ht]
      exact hpix
    unfold readPumpPass
    simp only [h1, h2]
    rw [if_pos hpix, if_pos hpix2,
      HandlePixelMessage_congr marshal env h { msg1 with Timestamp := stamp }
        { msg2 with Timestamp := stamp } client ht hx hy hc]
  · intro hpix hin b hb
    refine ⟨rfl, ?_⟩
    rw [← hcongr]
    unfold HandlePixelMessage
    rw [if_pos hpix]
    simp only [hin, hb, if_true]

theorem HandlePixelMessage_author_witness :
    HandlePixelMessage plainCodec demoEnv demoHub
        (NewPixelUpdateMessage 5 6 "#ff0000" "mallory" 0) 1 =
      HandlePixelMessage plainCodec demoEnv demoHub
        { NewPixelUpdateMessage 5 6 "#ff0000" "alice" 77 with
          Content := "x", UserList := some ["bob"], Pixels := some ∅ } 1 :=
  (HandlePixelMessage_author plainCodec some demoEnv 3 demoHub
    (NewPixelUpdateMessage 5 6 "#ff0000" "mallory" 0)
    { NewPixelUpdateMessage 5 6 "#ff0000" "alice" 77 with
      Content := "x", UserList := some ["bob"], Pixels := some ∅ } 1 rfl rfl rfl rfl).1

/-- C11, as the code has it: in a hub state whose registered agents all have an open
queue and whose canvas is 32x32, `HandlePixelMessage` for a pixel-update event of a
registered sender with an in-bounds coordinate stores the color at the coordinate and
appends to the queue of every registered agent with room, the sender included, exactly
one message: the pixel-update message with that x, y and color and the sender's `ID` as
`client_id`; no other queue gets an item. -/
theorem HandlePixelMessage_update {B : Type} (marshal : Message → Option B) (env : Env)
    (h : HubState B) (msg : Message) (client : Ptr) (hv : env.Valid)
    (hopen : ∀ p ∈ h.clients, (h.send p).closed = false)
    (hw : h.canvas.canvas.Width = CanvasWidth) (hh : h.canvas.canvas.Height = CanvasHeight)
    (hsender : client ∈ h.clients) (ht : msg.Typ = MessageTypePixelUpdate)
    (hx : 0 ≤ msg.X ∧ msg.X < 32) (hy : 0 ≤ msg.Y ∧ msg.Y < 32)
    (hm : ∀ m, ∃ b, marshal m = some b) :
    ∃ h1 b, HandlePixelMessage marshal env h msg client = .ok h1 ∧
      marshal (NewPixelUpdateMessage msg.X msg.Y msg.Color (h.clientID client) (env.now 1)) =
        some b ∧
      GetPixel h1.canvas msg.X msg.Y = msg.Color ∧
      (client ∈ h1.clients ∨ sendCap ≤ (h.send client).buf.length) ∧
      (∀ p ∈ h.clients, (h.send p).buf.length < sendCap →
        p ∈ h1.clients ∧ h1.send p = { buf := (h.send p).buf ++ [b], closed := false }) ∧
      (∀ p, p ∉ h.clients ∨ sendCap ≤ (h.send p).buf.length →
        (h1.send p).buf = (h.send p).buf) := by
  have hb := inBounds_of h.canvas msg.X msg.Y hw hh hx hy
  obtain ⟨b, hmb⟩ := hm (NewPixelUpdateMessage msg.X msg.Y msg.Color (h.clientID client)
    (env.now 1))
  have hrun := HandlePixelMessage_update_eq marshal env h msg client b ht
    (UpdatePixel_in_true _ _ _ _ _ hb) hmb
  rw [broadcastToAll_eq (env.ord 0) (hv.1 0)
    { h with canvas := (UpdatePixel h.canvas msg.X msg.Y msg.Color (env.now 0)).1 } b
    hopen] at hrun
  obtain ⟨hroom, hrest⟩ := fanOut_all_queues h
    (UpdatePixel h.canvas msg.X msg.Y msg.Color (env.now 0)).1 b hopen
  refine ⟨_, b, hrun, hmb, GetPixel_after_update _ _ _ _ _ hb, ?_, hroom, hrest⟩
  by_cases hr : (h.send client).buf.length < sendCap
  · exact Or.inl (hroom client hsender hr).1
  · exact Or.inr (Nat.le_of_not_lt hr)

theorem HandlePixelMessage_update_witness :
    ∃ h1 b, HandlePixelMessage plainCodec demoEnv demoHub
        (NewPixelUpdateMessage 5 5 "#ff0000" "mallory" 0) 1 = .ok h1 ∧
      plainCodec (NewPixelUpdateMessage 5 5 "#ff0000" (demoHub.clientID 1) (demoEnv.now 1)) =
        some b ∧
      GetPixel h1.canvas 5 5 = "#ff0000" ∧
      h1.send 1 = { buf := [] ++ [b], closed := false } := by
  obtain ⟨h1, b, hrun, hb, hget, _, hroom, _⟩ :=
    HandlePixelMessage_update plainCodec demoEnv demoHub
      (NewPixelUpdateMessage 5 5 "#ff0000" "mallory" 0) 1 demoEnv_valid (fun _ _ => rfl)
      rfl rfl (by decide) rfl (by decide) (by decide) (fun m => ⟨m, rfl⟩)
  exact ⟨h1, b, hrun, hb, hget, (hroom 1 (by decide) (by decide)).2⟩

/-- C11 fails as stated: client 2 is a registered sender, client 1 is registered with
room in a closed queue, and handling the in-bounds pixel update of client 2 panics. -/
theorem HandlePixelMessage_update_closed_queue_panics :
    2 ∈ halfEvictedHub.clients ∧ 1 ∈ halfEvictedHub.clients ∧
    (halfEvictedHub.send 1).buf.length < sendCap ∧
    HandlePixelMessage plainCodec demoEnv halfEvictedHub
      (NewPixelUpdateMessage 5 5 "#ff0000" "" 0) 2 = .error .sendOnClosedChannel := by
  refine ⟨by decide, by decide, by decide, ?_⟩
  rw [HandlePixelMessage_update_eq plainCodec demoEnv halfEvictedHub
    (NewPixelUpdateMessage 5 5 "#ff0000" "" 0) 2 _ rfl
    (UpdatePixel_in_true blankCanvas 5 5 "#ff0000" (demoEnv.now 0) (by decide)) rfl]
  have hmem : (1 : Ptr) ∈ halfEvictedHub.clients := by decide
  exact broadcastToAll_closed (demoEnv.ord 0) (demoEnv_valid.1 0) _ _ 1 hmem rfl

/-- C13, as the code has it: in a hub state whose registered agents all have an open
queue, whatever the canvas holds and whatever x, y and color the event carries, after
`HandlePixelMessage` has handled a canvas-clear event the canvas mapping and the
`GetPixels()` snapshot are empty and every registered agent with room in its queue has
exactly one canvas-clear message appended to it. -/
theorem HandlePixelMessage_clear {B : Type} (marshal : Message → Option B) (env : Env)
    (ord : Finset String → List String) (hord : RangeOrder ord)
    (h : HubState B) (msg : Message) (client : Ptr) (hv : env.Valid)
    (hopen : ∀ p ∈ h.clients, (h.send p).closed = false)
    (ht : msg.Typ = MessageTypeCanvasClear) (hm : ∀ m, ∃ b, marshal m = some b) :
    ∃ h1 b, HandlePixelMessage marshal env h msg client = .ok h1 ∧
      marshal (NewCanvasClearMessage (env.now 1)) = some b ∧
      h1.canvas.pixels = ∅ ∧
      (GetPixels ord h1.canvas).1.heap.cell (GetPixels ord h1.canvas).2 = ∅ ∧
      ∀ p ∈ h.clients, (h.send p).buf.length < sendCap →
        p ∈ h1.clients ∧ h1.send p = { buf := (h.send p).buf ++ [b], closed := false } := by
  obtain ⟨b, hmb⟩ := hm (NewCanvasClearMessage (env.now 1))
  have hrun := HandlePixelMessage_clear_eq marshal env h msg client b ht hmb
  rw [broadcastToAll_eq (env.ord 0) (hv.1 0) { h with canvas := Clear h.canvas (env.now 0) } b
    hopen] at hrun
  have hempty : (Clear h.canvas (env.now 0)).pixels = ∅ := by
    simp [Clear, Heap.make, CanvasState.pixels]
  refine ⟨_, b, hrun, hmb, hempty, ?_, (fanOut_all_queues h _ b hopen).1⟩
  exact (GetPixels_cell ord hord (Clear h.canvas (env.now 0))).trans hempty

theorem HandlePixelMessage_clear_witness :
    ∃ h1 b, HandlePixelMessage plainCodec demoEnv paintedHub
        { NewCanvasClearMessage 0 with X := 3, Y := 99, Color := "#ff0000" } 4 = .ok h1 ∧
      plainCodec (NewCanvasClearMessage (demoEnv.now 1)) = some b ∧
      h1.canvas.pixels = ∅ := by
  obtain ⟨h1, b, hrun, hb, hempty, _⟩ :=
    HandlePixelMessage_clear plainCodec demoEnv sortedOrder sortedOrder_rangeOrder paintedHub
      { NewCanvasClearMessage 0 with X := 3, Y := 99, Color := "#ff0000" } 4 demoEnv_valid
      (fun p hp => absurd hp (Finset.not_mem_empty p)) rfl (fun m => ⟨m, rfl⟩)
  exact ⟨h1, b, hrun, hb, hempty⟩

/-- C13 fails as stated: client 1 is registered with room in a closed queue, and
handling a canvas-clear event panics in the fan-out. -/
theorem HandlePixelMessage_clear_closed_queue_panics :
    1 ∈ halfEvictedHub.clients ∧ (halfEvictedHub.send 1).buf.length < sendCap ∧
    HandlePixelMessage plainCodec demoEnv halfEvictedHub (NewCanvasClearMessage 0) 2 =
      .error .sendOnClosedChannel := by
  refine ⟨by decide, by decide, ?_⟩
  rw [HandlePixelMessage_clear_eq plainCodec demoEnv halfEvictedHub
    (NewCanvasClearMessage 0) 2 _ rfl rfl]
  have hmem : (1 : Ptr) ∈ halfEvictedHub.clients := by decide
  exact broadcastToAll_closed (demoEnv.ord 0) (demoEnv_valid.1 0) _ _ 1 hmem rfl

/-- C15, as the code has it: in a hub state whose registered agents all have an open
queue, the `unregister` case for a registered agent `C` removes `C` from the registry,
closes the queue of `C` (once: there is no panic) without adding anything to it, and
appends to the queue of every other registered agent with at least two free slots a
user-left message carrying the identity of `C`, then a user-list message whose roster
lists the identities of an enumeration without repetition of the registered agents other
than `C`. -/
theorem unregister_registered {B : Type} (marshal : Message → Option B) (env : Env)
    (h : HubState B) (C : Ptr) (hv : env.Valid)
    (hopen : ∀ p ∈ h.clients, (h.send p).closed = false) (hC : C ∈ h.clients)
    (hm : ∀ m, ∃ b, marshal m = some b) :
    ∃ h1 bLeft bList roster, unregister marshal env h C = .ok h1 ∧
      C ∉ h1.clients ∧
      h1.send C = { buf := (h.send C).buf, closed := true } ∧
      marshal (NewUserLeftMessage (h.clientID C) (env.now 0)) = some bLeft ∧
      marshal (NewUserListMessage roster (env.now 1)) = some bList ∧
      (∃ l : List Ptr, l.Nodup ∧ (∀ p, p ∈ l ↔ p ∈ h.clients ∧ p ≠ C) ∧
        roster = l.map h.clientID) ∧
      ∀ A ∈ h.clients, A ≠ C → (h.send A).buf.length + 2 ≤ sendCap →
        A ∈ h1.clients ∧
        h1.send A = { buf := (h.send A).buf ++ [bLeft, bList], closed := false } := by
  obtain ⟨bLeft, hLeft⟩ := hm (NewUserLeftMessage (h.clientID C) (env.now 0))
  obtain ⟨bList, hList⟩ := hm (NewUserListMessage
    ((env.ord 0 (h.clients.erase C)).map h.clientID) (env.now 1))
  have hrun := unregister_eq marshal env h C bLeft bList hv hopen hC hLeft hList
  obtain ⟨hout, hq, hothers⟩ := unregister_queues h C bLeft bList
  have hnd := ((hv.1 0) (h.clients.erase C)).1
  have hmem : ∀ p, p ∈ env.ord 0 (h.clients.erase C) ↔ p ∈ h.clients ∧ p ≠ C := by
    intro p
    rw [((hv.1 0) (h.clients.erase C)).2 p, Finset.mem_erase]
    tauto
  refine ⟨_, bLeft, bList, _, hrun, hout, hq, hLeft, hList, ⟨_, hnd, hmem, rfl⟩, ?_⟩
  intro A hA hAC hroom
  obtain ⟨h1, h2⟩ := hothers A hA hAC hroom
  refine ⟨h1, ?_⟩
  rw [h2, hopen A hA]

theorem unregister_registered_witness :
    ∃ h1 bLeft bList roster, unregister plainCodec demoEnv demoHub 1 = .ok h1 ∧
      1 ∉ h1.clients ∧
      h1.send 1 = { buf := (demoHub.send 1).buf, closed := true } ∧
      plainCodec (NewUserLeftMessage (demoHub.clientID 1) (demoEnv.now 0)) = some bLeft ∧
      plainCodec (NewUserListMessage roster (demoEnv.now 1)) = some bList := by
  obtain ⟨h1, bLeft, bList, roster, hrun, hout, hq, hLeft, hList, _⟩ :=
    unregister_registered plainCodec demoEnv demoHub 1 demoEnv_valid (fun _ _ => rfl)
      (by decide) (fun m => ⟨m, rfl⟩)
  exact ⟨h1, bLeft, bList, roster, hrun, hout, hq, hLeft, hList⟩

/-- C15 fails as stated: client 2 is registered with an open queue, the remaining client
1 has two free slots in a closed queue, and the `unregister` case for client 2 panics in
the fan-out of the user-left message. -/
theorem unregister_closed_queue_panics :
    2 ∈ halfEvictedHub.clients ∧ (halfEvictedHub.send 2).closed = false ∧
    1 ∈ halfEvictedHub.clients ∧ (halfEvictedHub.send 1).buf.length + 2 ≤ sendCap ∧
    unregister plainCodec demoEnv halfEvictedHub 2 = .error .sendOnClosedChannel := by
  refine ⟨by decide, rfl, by decide, by decide, ?_⟩
  have hc : (2 : Ptr) ∈ halfEvictedHub.clients := by decide
  have hmem : (1 : Ptr) ∈ halfEvictedHub.clients.erase 2 := by decide
  have hclose : (halfEvictedHub.send 2).close = .ok { buf := [], closed := true } := rfl
  have hb : ∀ m : Message, broadcastToAll (demoEnv.ord 1)
      { clients := halfEvictedHub.clients.erase 2, canvas := halfEvictedHub.canvas,
        clientID := halfEvictedHub.clientID,
        send := Function.update halfEvictedHub.send 2 { buf := [], closed := true } } m =
      .error .sendOnClosedChannel := by
    intro m
    exact broadcastToAll_closed (demoEnv.ord 1) (demoEnv_valid.1 1) _ m 1 hmem rfl
  unfold unregister
  rw [if_pos hc, hclose]
  simp only [plainCodec, hb]

/-- C16, the code at the failing input: client 1 is registered with an open queue; its
inbound pump gets a text message while the hub is not receiving on `broadcast`, closes
the queue of client 1 and leaves its loop with client 1 still registered; the
`unregister` case that the teardown triggers then closes the same queue again and
panics, and a fan-out pass that runs before it panics on the closed queue. -/
theorem selfEviction_panics :
    1 ∈ demoHub.clients ∧ (demoHub.send 1).closed = false ∧
    readPumpPass plainCodec some demoEnv 0 demoHub 1 (some (NewTextUpdateMessage "hi" 0))
        false =
      .ok ({ clients := demoHub.clients, canvas := demoHub.canvas,
             clientID := demoHub.clientID,
             send := Function.update demoHub.send 1 { buf := [], closed := true } },
        false) ∧
    readPumpThenTeardown plainCodec some demoEnv demoEnv 0 demoHub 1
        (some (NewTextUpdateMessage "hi" 0)) false =
      .error .closeOfClosedChannel ∧
    broadcastToAll sortedOrder
        { demoHub with send := Function.update demoHub.send 1 { buf := [], closed := true } }
        (NewCanvasClearMessage 3) =
      .error .sendOnClosedChannel := by
  have hpass := readPumpPass_selfEvict plainCodec some demoEnv 0 demoHub 1
    (NewTextUpdateMessage "hi" 0) { NewTextUpdateMessage "hi" 0 with Timestamp := 0 }
    (NewTextUpdateMessage "hi" 0) rfl textUpdate_not_pixel rfl rfl
  have hmem : (1 : Ptr) ∈ demoHub.clients := by decide
  refine ⟨hmem, rfl, hpass, ?_, ?_⟩
  · unfold readPumpThenTeardown
    rw [hpass]
    exact unregister_closed plainCodec demoEnv
      { demoHub with send := Function.update demoHub.send 1 { buf := [], closed := true } }
      1 hmem rfl
  · exact broadcastToAll_closed sortedOrder sortedOrder_rangeOrder
      { demoHub with send := Function.update demoHub.send 1 { buf := [], closed := true } }
      _ 1 hmem rfl

/-- C18: the key `"%d,%d"` of a coordinate determines the coordinate, so for every canvas
state, every two distinct integer coordinates and every color, `GetPixel(x',y')` returns
after `UpdatePixel(x,y,c)` what it returned before. -/
theorem UpdatePixel_frame (s : CanvasState) (x y x1 y1 : Int) (color : String) (now : Time) :
    (pixelKey x y = pixelKey x1 y1 → x = x1 ∧ y = y1) ∧
    ((x, y) ≠ (x1, y1) →
      GetPixel (UpdatePixel s x y color now).1 x1 y1 = GetPixel s x1 y1) := by
  refine ⟨pixelKey_injective x y x1 y1, ?_⟩
  intro hne
  have hkey : pixelKey x1 y1 ≠ pixelKey x y := by
    intro hk
    obtain ⟨h1, h2⟩ := pixelKey_injective x1 y1 x y hk
    exact hne (by rw [h1, h2])
  by_cases hb : (x < 0 ∨ x ≥ s.canvas.Width ∨ y < 0 ∨ y ≥ s.canvas.Height)
  · have : (UpdatePixel s x y color now).1 = s := by
      unfold UpdatePixel
      rw [if_pos hb]
    rw [this]
  · have hc := canvas_update s x y color now
    have hl : (UpdatePixel s x y color now).1.pixels.lookup (pixelKey x1 y1) =
        s.pixels.lookup (pixelKey x1 y1) := by
      rw [pixels_update_in s x y color now hb]
      by_cases hcol : color = DefaultColor
      · rw [if_pos hcol, Finmap.lookup_erase_ne hkey]
      · rw [if_neg hcol, Finmap.lookup_insert_of_ne _ hkey]
    unfold GetPixel
    rw [hc.1, hc.2.1, hl]

theorem UpdatePixel_frame_witness :
    GetPixel (UpdatePixel blankCanvas 1 12 "#ff0000" 7).1 11 2 = GetPixel blankCanvas 11 2 :=
  (UpdatePixel_frame blankCanvas 1 12 11 2 "#ff0000" 7).2 (by decide)

/-- C19: in every canvas state reached from `NewPixelCanvas()` by `UpdatePixel` and
`Clear` calls with arbitrary arguments, every key of the pixel mapping is the key of an
in-bounds coordinate, so the mapping and every `GetPixels()` snapshot have at most
32*32 = 1024 entries. -/
theorem reachable_keys_bounded (ord : Finset String → List String) (hord : RangeOrder ord)
    (h0 : Heap) (t0 : Time) (ops : List CanvasOp) :
    (∀ k ∈ (runCanvas (NewPixelCanvas h0 t0) ops).pixels,
      ∃ x y : Int, 0 ≤ x ∧ x < 32 ∧ 0 ≤ y ∧ y < 32 ∧ k = pixelKey x y) ∧
    Multiset.card (runCanvas (NewPixelCanvas h0 t0) ops).pixels.entries ≤ 32 * 32 ∧
    (runCanvas (NewPixelCanvas h0 t0) ops).pixels.keys.card ≤ 32 * 32 ∧
    Multiset.card ((GetPixels ord (runCanvas (NewPixelCanvas h0 t0) ops)).1.heap.cell
      (GetPixels ord (runCanvas (NewPixelCanvas h0 t0) ops)).2).entries ≤ 32 * 32 := by
  have hk := KeysInGrid_run ops _ (CanvasInv_new h0 t0) (KeysInGrid_new h0 t0)
  have hcard := KeysInGrid_card _ hk
  refine ⟨hk, hcard.1, hcard.2, ?_⟩
  rw [GetPixels_cell ord hord]
  exact hcard.1

theorem reachable_keys_bounded_witness :
    Multiset.card (runCanvas (NewPixelCanvas blankCanvas.heap 0)
      [.update 2 2 "#ff0000" 2, .update 40 2 "#ff0000" 3]).pixels.entries ≤ 32 * 32 :=
  (reachable_keys_bounded sortedOrder sortedOrder_rangeOrder blankCanvas.heap 0
    [.update 2 2 "#ff0000" 2, .update 40 2 "#ff0000" 3]).2.1

end PixelHub
